import Mathlib

/-!
Verification development for the deposition-analysis core of the
legal-automations repository: the transcript segmenter (`parser.ts`),
the citation model (`utils/citations.ts`), the vector similarity engine
(`utils/vectorSearch.ts`), the contradiction-detection orchestrator
(`services/contradictionDetector.ts`) and the upload pipeline (`App.tsx`).

The TypeScript sources are embedded shallowly: JS strings become `String`
(scanning is done on `List Char`), JS numbers become `Nat` where they hold
counts and pages, `ℚ` where they hold confidences, and `ℝ` where they hold
vector components and similarity scores (square roots force `ℝ`).  External
collaborators (the LLM claim extractor, the pairwise classifier, the
embedding service, the uuid generator) are passed in as oracle parameters;
a classifier call that throws is modelled as the oracle returning `none`.
-/

namespace Depo

/-! ## Character-level helpers shared by the regex-style scanners

JS regexes are embedded as hand-rolled scanners over `List Char`.
`isWs` models the `\s` class for the ASCII inputs at hand (the same class
that core `Char.isWhitespace` uses), `isDigitC` models `\d`, `isLetterC`
models `[A-Z]` under the `i` flag. -/

def isWs (c : Char) : Bool := c.isWhitespace

def isDigitC (c : Char) : Bool := c.isDigit

def isLetterC (c : Char) : Bool :=
  (('A' ≤ c) && (c ≤ 'Z')) || (('a' ≤ c) && (c ≤ 'z'))

/-- Numeric value of a list of decimal digit characters, most significant
first, as computed by `parseInt(s, 10)` on a digit-only string. -/
def digitsVal (l : List Char) : Nat :=
  l.foldl (fun acc c => 10 * acc + (c.toNat - '0'.toNat)) 0

/-- Decimal digit character for `n < 10`. -/
def digitChar (n : Nat) : Char := Char.ofNat ('0'.toNat + n)

/-- Decimal representation of a natural number, as produced by JS template
interpolation of a number. -/
def natDigits (n : Nat) : List Char :=
  if n < 10 then [digitChar n]
  else natDigits (n / 10) ++ [digitChar (n % 10)]
  decreasing_by exact Nat.div_lt_self (by omega) (by omega)

/-- Fuel-driven version of `natDigits` that the kernel can evaluate
(the well-founded recursion of `natDigits` does not reduce). -/
def natDigitsCore : Nat → Nat → List Char → List Char
  | 0, _, acc => acc
  | fuel + 1, n, acc =>
    if n < 10 then digitChar (n % 10) :: acc
    else natDigitsCore fuel (n / 10) (digitChar (n % 10) :: acc)

theorem natDigitsCore_eq (fuel n : Nat) (acc : List Char) (h : n < fuel) :
    natDigitsCore fuel n acc = natDigits n ++ acc := by
  induction fuel generalizing n acc with
  | zero => omega
  | succ fuel ih =>
    rw [natDigitsCore, natDigits]
    by_cases h10 : n < 10
    · rw [if_pos h10, if_pos h10, Nat.mod_eq_of_lt h10]
      rfl
    · rw [if_neg h10, if_neg h10, ih (n / 10) _ (by omega), List.append_assoc]
      rfl

def natStr (n : Nat) : String := String.mk (natDigitsCore (n + 1) n [])

theorem natStr_eq (n : Nat) : natStr n = String.mk (natDigits n) := by
  rw [natStr, natDigitsCore_eq (n + 1) n [] (by omega), List.append_nil]

/-- Strip a literal character sequence case-insensitively from the front
of `t`, returning the remainder when the whole of `w` is present. -/
def stripCI : (w : List Char) → (t : List Char) → Option (List Char)
  | [], t => some t
  | _, [] => none
  | w :: ws, c :: cs => if c.toLower = w.toLower then stripCI ws cs else none

/-- JS-style `trim` over a character list: drop leading and trailing
whitespace. -/
def trimChars (l : List Char) : List Char :=
  ((l.dropWhile isWs).reverse.dropWhile isWs).reverse

/-- JS `String.prototype.trim` (modelled for the ASCII whitespace class). -/
def trimWs (s : String) : String := String.mk (trimChars s.toList)

/-- JS `Array.prototype.join(sep)` on strings. -/
def joinSep (sep : String) : List String → String
  | [] => ""
  | [x] => x
  | x :: xs => x ++ sep ++ joinSep sep xs

/-- JS `String.prototype.toLowerCase` / `toUpperCase`, modelled per
character (core `String.map` does not kernel-reduce). -/
def strToLower (s : String) : String := String.mk (s.toList.map Char.toLower)

def strToUpper (s : String) : String := String.mk (s.toList.map Char.toUpper)

/-- JS `text.split('\n')`, modelled directly on the character list (core
`String.splitOn` does not kernel-reduce). -/
def splitNlAux : List Char → List Char → List String
  | [], acc => [String.mk acc.reverse]
  | '\n' :: rest, acc => String.mk acc.reverse :: splitNlAux rest []
  | c :: rest, acc => splitNlAux rest (c :: acc)

def splitNl (s : String) : List String := splitNlAux s.toList []

/-! ## Citation model — `webapp/src/utils/citations.ts`

`CitationAnchor` is the interface of `citations.ts`; optional fields
become `Option Nat`. -/

structure CitationAnchor where
  page : Nat
  lineStart : Option Nat
  lineEnd : Option Nat
  charStart : Option Nat
  charEnd : Option Nat
deriving DecidableEq

/-- `formatCitation` from `citations.ts` (lines 11-24): line range, single
line, character position or bare page, in that order of preference. -/
def formatCitation (anchor : CitationAnchor) : String :=
  match anchor.lineStart with
  | some ls =>
    match anchor.lineEnd with
    | some le =>
      if le ≠ ls then
        "Page " ++ natStr anchor.page ++ ", Lines " ++ natStr ls ++ "-" ++ natStr le
      else
        "Page " ++ natStr anchor.page ++ ", Line " ++ natStr ls
    | none => "Page " ++ natStr anchor.page ++ ", Line " ++ natStr ls
  | none =>
    match anchor.charStart with
    | some cs => "Page " ++ natStr anchor.page ++ ", Position " ++ natStr cs
    | none => "Page " ++ natStr anchor.page

/-- Greedy `\d+` at the head of the input: the maximal digit run and the
remainder.  Fails when the head is not a digit. -/
def takeDigits (t : List Char) : Option (Nat × List Char) :=
  let ds := t.takeWhile isDigitC
  if ds = [] then none else some (digitsVal ds, t.dropWhile isDigitC)

/-- `\s+` at the head of the input: requires at least one whitespace
character, consumes the maximal run. -/
def takeWs1 (t : List Char) : Option (List Char) :=
  match t with
  | c :: rest => if isWs c then some (rest.dropWhile isWs) else none
  | [] => none

/-- Attempt of `/Page\s+(\d+)/i` anchored at the current position:
the literal `Page`, one-plus whitespace, then the captured digits. -/
def pageAt (t : List Char) : Option Nat := do
  let t ← stripCI ['p', 'a', 'g', 'e'] t
  let t ← takeWs1 t
  let (n, _) ← takeDigits t
  pure n

/-- Unanchored search of `/Page\s+(\d+)/i`: first match wins, scanning
left to right as the JS regex engine does. -/
def findPage : List Char → Option Nat
  | [] => none
  | c :: rest =>
    match pageAt (c :: rest) with
    | some n => some n
    | none => findPage rest

/-- Consume the optional `s` of `/Lines?/i`. -/
def dropOptS (t : List Char) : List Char :=
  match t with
  | 's' :: r => r
  | 'S' :: r => r
  | _ => t

/-- Attempt of `/Lines?\s+(\d+)(?:-(\d+))?/i` anchored at the current
position: literal `Line`, optional `s`, one-plus whitespace, captured
digits, then an optional `-digits` tail. -/
def lineRangeAt (t : List Char) : Option (Nat × Option Nat) := do
  let t ← stripCI ['l', 'i', 'n', 'e'] t
  let t := dropOptS t
  let t ← takeWs1 t
  let (n, t) ← takeDigits t
  match t with
  | '-' :: t2 =>
    match takeDigits t2 with
    | some (m, _) => pure (n, some m)
    | none => pure (n, none)
  | _ => pure (n, none)

/-- Unanchored search of `/Lines?\s+(\d+)(?:-(\d+))?/i`. -/
def findLineRange : List Char → Option (Nat × Option Nat)
  | [] => none
  | c :: rest =>
    match lineRangeAt (c :: rest) with
    | some r => some r
    | none => findLineRange rest

/-- Attempt of `/Position\s+(\d+)/i` anchored at the current position. -/
def positionAt (t : List Char) : Option Nat := do
  let t ← stripCI ['p', 'o', 's', 'i', 't', 'i', 'o', 'n'] t
  let t ← takeWs1 t
  let (n, _) ← takeDigits t
  pure n

/-- Unanchored search of `/Position\s+(\d+)/i`. -/
def findPosition : List Char → Option Nat
  | [] => none
  | c :: rest =>
    match positionAt (c :: rest) with
    | some n => some n
    | none => findPosition rest

/-- `parseCitation` from `citations.ts` (lines 26-56): page is required;
a line range returns early; otherwise a character position is attempted. -/
def parseCitation (citation : String) : Option CitationAnchor :=
  let t := citation.toList
  match findPage t with
  | none => none
  | some page =>
    match findLineRange t with
    | some (ls, le) => some ⟨page, some ls, le, none, none⟩
    | none =>
      match findPosition t with
      | some pos => some ⟨page, none, none, some pos, none⟩
      | none => some ⟨page, none, none, none, none⟩

theorem formatCitation_sample_range :
    formatCitation ⟨12, some 5, some 8, none, none⟩ = "Page 12, Lines 5-8" := by decide

theorem formatCitation_sample_single :
    formatCitation ⟨12, some 5, some 5, none, none⟩ = "Page 12, Line 5" := by decide

theorem parseCitation_sample_range :
    parseCitation "Page 12, Lines 5-8" = some ⟨12, some 5, some 8, none, none⟩ := by decide

theorem parseCitation_sample_single :
    parseCitation "Page 12, Line 5" = some ⟨12, some 5, none, none, none⟩ := by decide

/-! ### Facts about decimal digit runs, used for the citation round-trip -/

def decimalChars : List Char := ['0', '1', '2', '3', '4', '5', '6', '7', '8', '9']

theorem digitChar_mem (m : Nat) (h : m < 10) : digitChar m ∈ decimalChars := by
  interval_cases m <;> decide

theorem natDigits_mem (n : Nat) : ∀ c ∈ natDigits n, c ∈ decimalChars := by
  induction n using Nat.strong_induction_on with
  | _ n ih =>
    rw [natDigits]
    by_cases h : n < 10
    · rw [if_pos h]
      intro c hc
      rw [List.mem_singleton] at hc
      subst hc
      exact digitChar_mem n h
    · rw [if_neg h]
      intro c hc
      rcases List.mem_append.mp hc with h1 | h1
      · exact ih (n / 10) (Nat.div_lt_self (by omega) (by omega)) c h1
      · rw [List.mem_singleton] at h1
        subst h1
        exact digitChar_mem _ (Nat.mod_lt _ (by omega))

theorem natDigits_ne_nil (n : Nat) : natDigits n ≠ [] := by
  rw [natDigits]
  by_cases h : n < 10
  · rw [if_pos h]; simp
  · rw [if_neg h]; simp

theorem decChar_isDigit {c : Char} (h : c ∈ decimalChars) : isDigitC c = true := by
  fin_cases h <;> decide

theorem decChar_not_ws {c : Char} (h : c ∈ decimalChars) : isWs c = false := by
  fin_cases h <;> decide

theorem decChar_toLower_ne_l {c : Char} (h : c ∈ decimalChars) : ¬(c.toLower = 'l') := by
  fin_cases h <;> decide

theorem digitsVal_append_singleton (l : List Char) (c : Char) :
    digitsVal (l ++ [c]) = 10 * digitsVal l + (c.toNat - '0'.toNat) := by
  simp [digitsVal]

theorem digitChar_val (m : Nat) (h : m < 10) : (digitChar m).toNat - '0'.toNat = m := by
  interval_cases m <;> decide

theorem digitsVal_natDigits (n : Nat) : digitsVal (natDigits n) = n := by
  induction n using Nat.strong_induction_on with
  | _ n ih =>
    rw [natDigits]
    by_cases h : n < 10
    · rw [if_pos h]
      have hv : digitsVal [digitChar n] = (digitChar n).toNat - '0'.toNat := by
        simp [digitsVal]
      rw [hv, digitChar_val n h]
    · rw [if_neg h, digitsVal_append_singleton,
        ih (n / 10) (Nat.div_lt_self (by omega) (by omega)),
        digitChar_val _ (Nat.mod_lt _ (by omega))]
      omega

theorem takeWhile_append_of_all (p : Char → Bool) (l r : List Char) (h : ∀ c ∈ l, p c) :
    (l ++ r).takeWhile p = l ++ r.takeWhile p := by
  induction l with
  | nil => simp
  | cons c t ih =>
    simp only [List.cons_append, List.takeWhile_cons, h c (by simp), if_true]
    rw [ih (fun x hx => h x (by simp [hx]))]

theorem dropWhile_append_of_all (p : Char → Bool) (l r : List Char) (h : ∀ c ∈ l, p c) :
    (l ++ r).dropWhile p = r.dropWhile p := by
  induction l with
  | nil => simp
  | cons c t ih =>
    simp only [List.cons_append, List.dropWhile_cons, h c (by simp), if_true]
    exact ih (fun x hx => h x (by simp [hx]))

theorem takeWhile_head_neg (p : Char → Bool) (l : List Char)
    (h : ∀ c, l.head? = some c → p c = false) : l.takeWhile p = [] := by
  cases l with
  | nil => rfl
  | cons c t => simp [List.takeWhile_cons, h c rfl]

theorem dropWhile_head_neg (p : Char → Bool) (l : List Char)
    (h : ∀ c, l.head? = some c → p c = false) : l.dropWhile p = l := by
  cases l with
  | nil => rfl
  | cons c t => simp [List.dropWhile_cons, h c rfl]

/-- Parsing the maximal digit run at the head of `natDigits n ++ rest`
recovers `n` exactly, provided `rest` does not begin with a digit. -/
theorem takeDigits_run (n : Nat) (rest : List Char)
    (h : ∀ c, rest.head? = some c → isDigitC c = false) :
    takeDigits (natDigits n ++ rest) = some (n, rest) := by
  have hall : ∀ c ∈ natDigits n, isDigitC c :=
    fun c hc => decChar_isDigit (natDigits_mem n c hc)
  unfold takeDigits
  rw [takeWhile_append_of_all _ _ _ hall, takeWhile_head_neg _ _ h, List.append_nil,
    dropWhile_append_of_all _ _ _ hall, dropWhile_head_neg _ _ h,
    if_neg (natDigits_ne_nil n), digitsVal_natDigits]

theorem dropWhile_ws_digits (n : Nat) (rest : List Char) :
    (natDigits n ++ rest).dropWhile isWs = natDigits n ++ rest := by
  obtain ⟨d, ds, hd⟩ : ∃ d ds, natDigits n = d :: ds := by
    cases hnd : natDigits n with
    | nil => exact absurd hnd (natDigits_ne_nil n)
    | cons d ds => exact ⟨d, ds, rfl⟩
  apply dropWhile_head_neg
  intro c hc
  rw [hd, List.cons_append, List.head?_cons] at hc
  have hcd : d = c := by simpa using hc
  subst hcd
  exact decChar_not_ws (natDigits_mem n d (by rw [hd]; exact List.mem_cons_self d ds))

/-- The `/Page\s+(\d+)/i` probe succeeds at the head of a formatted
citation and captures the page number. -/
theorem pageAt_run (p : Nat) (rest : List Char)
    (h : ∀ c, rest.head? = some c → isDigitC c = false) :
    pageAt ('P' :: 'a' :: 'g' :: 'e' :: ' ' :: (natDigits p ++ rest)) = some p := by
  have h1 : stripCI ['p', 'a', 'g', 'e'] ('P' :: 'a' :: 'g' :: 'e' :: ' ' :: (natDigits p ++ rest))
      = some (' ' :: (natDigits p ++ rest)) := by
    simp +decide [stripCI]
  have h2 : takeWs1 (' ' :: (natDigits p ++ rest)) = some (natDigits p ++ rest) := by
    simp +decide [takeWs1, dropWhile_ws_digits]
  rw [pageAt]
  rw [h1]
  simp only [Option.bind_eq_bind, Option.some_bind]
  rw [h2]
  simp only [Option.some_bind]
  rw [takeDigits_run p rest h]
  rfl

theorem findPage_run (p : Nat) (rest : List Char)
    (h : ∀ c, rest.head? = some c → isDigitC c = false) :
    findPage ('P' :: 'a' :: 'g' :: 'e' :: ' ' :: (natDigits p ++ rest)) = some p := by
  rw [findPage, pageAt_run p rest h]

/-- Scanning for `/Lines?\s+.../i` skips any characters that do not
lower-case to the letter `l`. -/
theorem findLineRange_cons_ne (c : Char) (t : List Char) (h : ¬(c.toLower = 'l')) :
    findLineRange (c :: t) = findLineRange t := by
  have hnone : lineRangeAt (c :: t) = none := by
    rw [lineRangeAt]
    have : stripCI ['l', 'i', 'n', 'e'] (c :: t) = none := by
      rw [stripCI, if_neg (by simpa using h)]
    rw [this]
    rfl
  rw [findLineRange, hnone]

theorem findLineRange_append_no_l (l rest : List Char) (h : ∀ c ∈ l, ¬(c.toLower = 'l')) :
    findLineRange (l ++ rest) = findLineRange rest := by
  induction l with
  | nil => rfl
  | cons c t ih =>
    rw [List.cons_append, findLineRange_cons_ne c _ (h c (by simp))]
    exact ih (fun x hx => h x (by simp [hx]))

theorem lineRangeAt_range (ls le : Nat) :
    lineRangeAt ('L' :: 'i' :: 'n' :: 'e' :: 's' :: ' ' :: (natDigits ls ++ ('-' :: natDigits le)))
      = some (ls, some le) := by
  have h1 : stripCI ['l', 'i', 'n', 'e']
      ('L' :: 'i' :: 'n' :: 'e' :: 's' :: ' ' :: (natDigits ls ++ ('-' :: natDigits le)))
      = some ('s' :: ' ' :: (natDigits ls ++ ('-' :: natDigits le))) := by
    simp +decide [stripCI]
  have h2 : takeWs1 (' ' :: (natDigits ls ++ ('-' :: natDigits le)))
      = some (natDigits ls ++ ('-' :: natDigits le)) := by
    simp +decide [takeWs1, dropWhile_ws_digits]
  have h3 : takeDigits (natDigits ls ++ ('-' :: natDigits le)) = some (ls, '-' :: natDigits le) := by
    apply takeDigits_run
    intro c hc
    simp only [List.head?_cons, Option.some.injEq] at hc
    subst hc
    decide
  have h4 : takeDigits (natDigits le) = some (le, []) := by
    have h5 := takeDigits_run le [] (by intro c hc; simp at hc)
    simpa using h5
  rw [lineRangeAt, h1]
  simp only [Option.bind_eq_bind, Option.some_bind]
  rw [show dropOptS ('s' :: ' ' :: (natDigits ls ++ ('-' :: natDigits le)))
      = ' ' :: (natDigits ls ++ ('-' :: natDigits le)) from rfl]
  rw [h2]
  simp only [Option.some_bind]
  rw [h3]
  simp only [Option.some_bind]
  rw [h4]
  rfl

theorem lineRangeAt_single (ls : Nat) :
    lineRangeAt ('L' :: 'i' :: 'n' :: 'e' :: ' ' :: natDigits ls) = some (ls, none) := by
  have h1 : stripCI ['l', 'i', 'n', 'e'] ('L' :: 'i' :: 'n' :: 'e' :: ' ' :: natDigits ls)
      = some (' ' :: natDigits ls) := by
    simp +decide [stripCI]
  have h2 : takeWs1 (' ' :: natDigits ls) = some (natDigits ls) := by
    have h2a : (natDigits ls).dropWhile isWs = natDigits ls := by
      have := dropWhile_ws_digits ls []
      simpa using this
    simp +decide [takeWs1, h2a]
  have h3 : takeDigits (natDigits ls) = some (ls, []) := by
    have h5 := takeDigits_run ls [] (by intro c hc; simp at hc)
    simpa using h5
  rw [lineRangeAt, h1]
  simp only [Option.bind_eq_bind, Option.some_bind]
  rw [show dropOptS (' ' :: natDigits ls) = ' ' :: natDigits ls from rfl]
  rw [h2]
  simp only [Option.some_bind]
  rw [h3]
  rfl

theorem findLineRange_fmt_range (p ls le : Nat) :
    findLineRange ('P' :: 'a' :: 'g' :: 'e' :: ' ' ::
        (natDigits p ++ (',' :: ' ' :: 'L' :: 'i' :: 'n' :: 'e' :: 's' :: ' ' ::
          (natDigits ls ++ ('-' :: natDigits le)))))
      = some (ls, some le) := by
  rw [findLineRange_cons_ne 'P' _ (by decide), findLineRange_cons_ne 'a' _ (by decide),
    findLineRange_cons_ne 'g' _ (by decide), findLineRange_cons_ne 'e' _ (by decide),
    findLineRange_cons_ne ' ' _ (by decide),
    findLineRange_append_no_l (natDigits p) _
      (fun c hc => decChar_toLower_ne_l (natDigits_mem p c hc)),
    findLineRange_cons_ne ',' _ (by decide), findLineRange_cons_ne ' ' _ (by decide),
    findLineRange, lineRangeAt_range]

theorem findLineRange_fmt_single (p ls : Nat) :
    findLineRange ('P' :: 'a' :: 'g' :: 'e' :: ' ' ::
        (natDigits p ++ (',' :: ' ' :: 'L' :: 'i' :: 'n' :: 'e' :: ' ' :: natDigits ls)))
      = some (ls, none) := by
  rw [findLineRange_cons_ne 'P' _ (by decide), findLineRange_cons_ne 'a' _ (by decide),
    findLineRange_cons_ne 'g' _ (by decide), findLineRange_cons_ne 'e' _ (by decide),
    findLineRange_cons_ne ' ' _ (by decide),
    findLineRange_append_no_l (natDigits p) _
      (fun c hc => decChar_toLower_ne_l (natDigits_mem p c hc)),
    findLineRange_cons_ne ',' _ (by decide), findLineRange_cons_ne ' ' _ (by decide),
    findLineRange, lineRangeAt_single]

theorem toList_fmt_range (p ls le : Nat) (cs ce : Option Nat) (h : ls < le) :
    (formatCitation ⟨p, some ls, some le, cs, ce⟩).toList
      = 'P' :: 'a' :: 'g' :: 'e' :: ' ' ::
        (natDigits p ++ (',' :: ' ' :: 'L' :: 'i' :: 'n' :: 'e' :: 's' :: ' ' ::
          (natDigits ls ++ ('-' :: natDigits le)))) := by
  show ((if le ≠ ls then
      "Page " ++ natStr p ++ ", Lines " ++ natStr ls ++ "-" ++ natStr le
    else "Page " ++ natStr p ++ ", Line " ++ natStr ls) : String).toList = _
  rw [if_pos h.ne']
  simp [natStr_eq, String.toList]

theorem toList_fmt_single (p ls : Nat) (cs ce : Option Nat) :
    (formatCitation ⟨p, some ls, some ls, cs, ce⟩).toList
      = 'P' :: 'a' :: 'g' :: 'e' :: ' ' ::
        (natDigits p ++ (',' :: ' ' :: 'L' :: 'i' :: 'n' :: 'e' :: ' ' :: natDigits ls)) := by
  show ((if ls ≠ ls then
      "Page " ++ natStr p ++ ", Lines " ++ natStr ls ++ "-" ++ natStr ls
    else "Page " ++ natStr p ++ ", Line " ++ natStr ls) : String).toList = _
  rw [if_neg (by simp)]
  simp [natStr_eq, String.toList]

theorem parse_format_range (p ls le : Nat) (cs ce : Option Nat) (h : ls < le) :
    parseCitation (formatCitation ⟨p, some ls, some le, cs, ce⟩)
      = some ⟨p, some ls, some le, none, none⟩ := by
  have hrest : ∀ c, ((',' :: ' ' :: 'L' :: 'i' :: 'n' :: 'e' :: 's' :: ' ' ::
      (natDigits ls ++ ('-' :: natDigits le))) : List Char).head? = some c →
      isDigitC c = false := by
    intro c hc
    simp only [List.head?_cons, Option.some.injEq] at hc
    subst hc
    decide
  rw [parseCitation, toList_fmt_range p ls le cs ce h, findPage_run p _ hrest]
  rw [findLineRange_fmt_range]

theorem parse_format_single (p ls : Nat) (cs ce : Option Nat) :
    parseCitation (formatCitation ⟨p, some ls, some ls, cs, ce⟩)
      = some ⟨p, some ls, none, none, none⟩ := by
  have hrest : ∀ c, ((',' :: ' ' :: 'L' :: 'i' :: 'n' :: 'e' :: ' ' ::
      natDigits ls) : List Char).head? = some c → isDigitC c = false := by
    intro c hc
    simp only [List.head?_cons, Option.some.injEq] at hc
    subst hc
    decide
  rw [parseCitation, toList_fmt_single p ls cs ce, findPage_run p _ hrest]
  rw [findLineRange_fmt_single]

/-! ## Similarity engine — `webapp/src/utils/vectorSearch.ts`

Vector components are modelled as real numbers.  A JS `throw` becomes
`Except.error`. -/

/-- The loop of `cosineSimilarity` accumulates `Σ aᵢ·bᵢ`; with `a = b` it
is the squared norm accumulator. -/
def sumProd (a b : List ℝ) : ℝ := (List.zipWith (fun x y => x * y) a b).sum

/-- `cosineSimilarity` from `vectorSearch.ts` (lines 10-33): length guard,
dot product and norms in one pass, zero-norm guard returning `0`. -/
noncomputable def cosineSimilarity (vecA vecB : List ℝ) : Except String ℝ :=
  if vecA.length ≠ vecB.length then Except.error "Vectors must have the same length"
  else
    let dotProduct := sumProd vecA vecB
    let normA := Real.sqrt (sumProd vecA vecA)
    let normB := Real.sqrt (sumProd vecB vecB)
    if normA = 0 ∨ normB = 0 then Except.ok 0
    else Except.ok (dotProduct / (normA * normB))

structure VectorSearchResult where
  index : Nat
  similarity : ℝ

/-- The scan loop of `findSimilarVectors` (lines 44-50): one similarity per
corpus entry, kept when at least `minSimilarity`; an exception from
`cosineSimilarity` aborts the whole call. -/
noncomputable def collectSims (queryVector : List ℝ) (minSimilarity : ℝ) :
    List (List ℝ) → Nat → Except String (List VectorSearchResult)
  | [], _ => Except.ok []
  | v :: rest, i =>
    match cosineSimilarity queryVector v with
    | Except.error e => Except.error e
    | Except.ok s =>
      match collectSims queryVector minSimilarity rest (i + 1) with
      | Except.error e => Except.error e
      | Except.ok tail =>
        Except.ok (if s ≥ minSimilarity then ⟨i, s⟩ :: tail else tail)

/-- Descending order on search results, as the comparator
`(a, b) => b.similarity - a.similarity` sorts. -/
def simGEr (a b : VectorSearchResult) : Prop := b.similarity ≤ a.similarity

noncomputable instance : DecidableRel simGEr := fun a b => Real.decidableLE b.similarity a.similarity

/-- `findSimilarVectors` from `vectorSearch.ts` (lines 36-57). -/
noncomputable def findSimilarVectors (queryVector : List ℝ) (corpus : List (List ℝ))
    (topK : Nat) (minSimilarity : ℝ) : Except String (List VectorSearchResult) :=
  match collectSims queryVector minSimilarity corpus 0 with
  | Except.error e => Except.error e
  | Except.ok similarities => Except.ok ((List.insertionSort simGEr similarities).take topK)

/-! ## Data model — `webapp/src/types/index.ts`

`Date`-valued fields (`createdAt`, `timestamp`) and the optional
`embeddingId` are clock/storage artifacts never read by the analyzed code
and are omitted. -/

inductive Role
  | QUESTION
  | ANSWER
deriving DecidableEq

inductive Polarity
  | affirm
  | deny
  | unknown
deriving DecidableEq

inductive Modality
  | certain
  | uncertain
  | dont_recall
deriving DecidableEq

inductive ContradictionType
  | HARD_CONTRADICTION
  | SOFT_INCONSISTENCY
  | SCOPE_SHIFT
  | TEMPORAL_CONFLICT
  | DEFINITION_DRIFT
deriving DecidableEq

/-- The label union of `ContradictionJudgment`:
`'CONSISTENT' | ContradictionType`. -/
inductive Label
  | CONSISTENT
  | HARD_CONTRADICTION
  | SOFT_INCONSISTENCY
  | SCOPE_SHIFT
  | TEMPORAL_CONFLICT
  | DEFINITION_DRIFT
deriving DecidableEq

/-- The `judgment.label as ContradictionType` cast in
`detectContradictionInPair`; the `CONSISTENT` arm is unreachable there
because the consistent case returns early. -/
def labelToType : Label → ContradictionType
  | Label.CONSISTENT => ContradictionType.HARD_CONTRADICTION
  | Label.HARD_CONTRADICTION => ContradictionType.HARD_CONTRADICTION
  | Label.SOFT_INCONSISTENCY => ContradictionType.SOFT_INCONSISTENCY
  | Label.SCOPE_SHIFT => ContradictionType.SCOPE_SHIFT
  | Label.TEMPORAL_CONFLICT => ContradictionType.TEMPORAL_CONFLICT
  | Label.DEFINITION_DRIFT => ContradictionType.DEFINITION_DRIFT

structure Utterance where
  id : String
  documentId : String
  pageNumber : Nat
  lineStart : Option Nat
  lineEnd : Option Nat
  speaker : String
  role : Role
  text : String
  citation : String
deriving DecidableEq

structure Claim where
  id : String
  utteranceId : String
  documentId : String
  normalizedText : String
  polarity : Polarity
  modality : Modality
  timeScope : Option String
  entities : List String
  topics : List String
  citation : String
deriving DecidableEq

structure ContradictionJudgment where
  label : Label
  explanation : String
  confidence : ℚ
deriving DecidableEq

structure Contradiction where
  id : String
  claimA : Claim
  claimB : Claim
  type : ContradictionType
  explanation : String
  confidence : ℚ
deriving DecidableEq

inductive Reason
  | semantic
  | entity
  | topic
  | temporal
deriving DecidableEq

structure CandidatePair where
  claimA : Claim
  claimB : Claim
  similarity : ℝ
  reason : Reason

structure ClaimWithEmbedding where
  claim : Claim
  embedding : List ℝ

/-! ## Candidate generation — `services/contradictionDetector.ts`
(the production version with local vector search, lines 364-791 of the
concatenated source file) -/

/-- `getPairKey` (lines 769-772): lexicographically ordered join of the
two claim ids. -/
def getPairKey (idA idB : String) : String :=
  if idA < idB then idA ++ ":" ++ idB else idB ++ ":" ++ idA

/-- The `sharedEntities` filter of signal 2 (lines 544-546):
case-insensitive entity overlap. -/
def sharedEntities (claim claimB : Claim) : List String :=
  claim.entities.filter (fun e => claimB.entities.any (fun e2 => strToLower e2 == strToLower e))

/-- The `sharedTopics` filter of signal 3 (lines 564-566). -/
def sharedTopics (claim claimB : Claim) : List String :=
  claim.topics.filter (fun t => claimB.topics.contains t)

/-- All non-overlapping matches of `/\d{4}/g`, scanned left to right with
the regex `lastIndex` jumping past each match. -/
def fourDigitTokens : List Char → List String
  | a :: b :: c :: d :: rest =>
    if isDigitC a ∧ isDigitC b ∧ isDigitC c ∧ isDigitC d then
      String.mk [a, b, c, d] :: fourDigitTokens rest
    else fourDigitTokens (b :: c :: d :: rest)
  | _ => []

/-- `hasTemporalOverlap` (lines 774-787): some four-digit year token in
common. -/
def hasTemporalOverlap (scopeA scopeB : String) : Bool :=
  (fourDigitTokens scopeA.toList).any (fun yearA => (fourDigitTokens scopeB.toList).contains yearA)

/-- The mutable pair of `generateCandidates`: the `candidates` array and
the `seenIds` set. -/
structure GenState where
  candidates : List CandidatePair
  seenIds : List String

/-- The semantic push loop of `generateCandidates` (lines 519-532):
look up each result index in `otherClaims`, skip seen ids and
same-utterance ids, otherwise push a `semantic` candidate with the true
similarity.  An out-of-range index cannot occur for results produced by
`findSimilarVectors` over `otherClaims`; the `none` arm is dead code. -/
noncomputable def pushSemanticResults (claim : Claim) (otherClaims : List ClaimWithEmbedding)
    (sameUtteranceIds : List String) : List VectorSearchResult → GenState → GenState
  | [], st => st
  | r :: rest, st =>
    match otherClaims.get? r.index with
    | none => pushSemanticResults claim otherClaims sameUtteranceIds rest st
    | some ce =>
      if ce.claim.id ∈ st.seenIds then
        pushSemanticResults claim otherClaims sameUtteranceIds rest st
      else if ce.claim.id ∈ sameUtteranceIds then
        pushSemanticResults claim otherClaims sameUtteranceIds rest st
      else
        pushSemanticResults claim otherClaims sameUtteranceIds rest
          ⟨st.candidates ++ [⟨claim, ce.claim, r.similarity, Reason.semantic⟩],
            ce.claim.id :: st.seenIds⟩

/-- The common skeleton of the three lexical signal loops of
`generateCandidates` (entity lines 539-557, topic lines 559-577, temporal
lines 579-595): walk `allClaims`, skip ids already seen and ids from the
query utterance, and push a fixed-score candidate for each claim passing
the signal test. -/
noncomputable def pushLexical (claim : Claim) (sameUtteranceIds : List String)
    (test : Claim → Bool) (score : ℝ) (reason : Reason) :
    List Claim → GenState → GenState
  | [], st => st
  | claimB :: rest, st =>
    if claimB.id ∈ st.seenIds then pushLexical claim sameUtteranceIds test score reason rest st
    else if claimB.id ∈ sameUtteranceIds then
      pushLexical claim sameUtteranceIds test score reason rest st
    else if test claimB then
      pushLexical claim sameUtteranceIds test score reason rest
        ⟨st.candidates ++ [⟨claim, claimB, score, reason⟩], claimB.id :: st.seenIds⟩
    else pushLexical claim sameUtteranceIds test score reason rest st

/-- Signal 2, entity overlap: fixed similarity `0.8`. -/
noncomputable def pushEntity (claim : Claim) (sameUtteranceIds : List String) :
    List Claim → GenState → GenState :=
  pushLexical claim sameUtteranceIds
    (fun claimB => sharedEntities claim claimB ≠ []) 0.8 Reason.entity

/-- Signal 3, topic overlap: fixed similarity `0.7`. -/
noncomputable def pushTopic (claim : Claim) (sameUtteranceIds : List String) :
    List Claim → GenState → GenState :=
  pushLexical claim sameUtteranceIds
    (fun claimB => sharedTopics claim claimB ≠ []) 0.7 Reason.topic

/-- The signal-4 test (lines 585): the candidate must itself carry a
`timeScope` sharing a year token with the query scope `scopeA`. -/
def temporalTest (scopeA : String) (claimB : Claim) : Bool :=
  match claimB.timeScope with
  | some scopeB => hasTemporalOverlap scopeA scopeB
  | none => false

/-- Signal 4, temporal overlap: guarded by the query claim having a
`timeScope` (`scopeA`), fixed similarity `0.75`. -/
noncomputable def pushTemporal (claim : Claim) (scopeA : String) (sameUtteranceIds : List String) :
    List Claim → GenState → GenState :=
  pushLexical claim sameUtteranceIds (temporalTest scopeA) 0.75 Reason.temporal

/-- Descending order on candidate pairs, as sorted by
`(a, b) => b.similarity - a.similarity`. -/
def simGE (a b : CandidatePair) : Prop := b.similarity ≤ a.similarity

noncomputable instance : DecidableRel simGE := fun a b => Real.decidableLE b.similarity a.similarity

instance : IsTotal CandidatePair simGE :=
  ⟨fun a b => le_total b.similarity a.similarity⟩

instance : IsTrans CandidatePair simGE :=
  ⟨fun _ _ _ hab hbc => le_trans hbc hab⟩

/-- The `sameUtteranceIds` set of `generateCandidates` (lines 494-496):
ids of every claim sharing the query claim's utterance. -/
def sameUtteranceIdsOf (claim : Claim) (allClaims : List Claim) : List String :=
  (allClaims.filter (fun c => c.utteranceId = claim.utteranceId)).map (fun c => c.id)

/-- The `otherClaims` restriction of the semantic signal (lines 505-507):
embedding entries other than the query claim and outside its utterance. -/
def otherClaimsOf (claim : Claim) (sameUtteranceIds : List String)
    (claimsWithEmbeddings : List ClaimWithEmbedding) : List ClaimWithEmbedding :=
  claimsWithEmbeddings.filter
    (fun ce => ce.claim.id ≠ claim.id ∧ ce.claim.id ∉ sameUtteranceIds)

/-- Signal 1, the semantic block of `generateCandidates` (lines 498-537):
runs only when an embedding index is present and contains the query
claim; a failure of the vector search is caught and contributes no
candidates. -/
noncomputable def semanticStage (claim : Claim) (sameUtteranceIds : List String)
    (claimsWithEmbeddings : List ClaimWithEmbedding) (topK : Nat)
    (similarityThreshold : ℝ) (st0 : GenState) : GenState :=
  if claimsWithEmbeddings.length > 0 then
    match claimsWithEmbeddings.find? (fun ce => ce.claim.id = claim.id) with
    | none => st0
    | some currentClaimEmbedding =>
      match findSimilarVectors currentClaimEmbedding.embedding
          ((otherClaimsOf claim sameUtteranceIds claimsWithEmbeddings).map
            (fun ce => ce.embedding)) (topK * 2) similarityThreshold with
      | Except.error _ => st0
      | Except.ok similarResults =>
        pushSemanticResults claim (otherClaimsOf claim sameUtteranceIds claimsWithEmbeddings)
          sameUtteranceIds similarResults st0
  else st0

/-- The state of `generateCandidates` after its four signal blocks
(lines 490-595), before sorting and truncation. -/
noncomputable def genStages (claim : Claim) (allClaims : List Claim)
    (claimsWithEmbeddings : List ClaimWithEmbedding) (topK : Nat)
    (similarityThreshold : ℝ) : GenState :=
  let sameUtteranceIds := sameUtteranceIdsOf claim allClaims
  let st0 : GenState := ⟨[], [claim.id]⟩
  let st1 := semanticStage claim sameUtteranceIds claimsWithEmbeddings topK
    similarityThreshold st0
  let st2 := pushEntity claim sameUtteranceIds allClaims st1
  let st3 := pushTopic claim sameUtteranceIds allClaims st2
  match claim.timeScope with
  | some scopeA => pushTemporal claim scopeA sameUtteranceIds allClaims st3
  | none => st3

/-- `generateCandidates` (lines 483-601): same-utterance exclusion set,
semantic signal over the embedding index (errors caught, falling back to
the lexical signals), then entity, topic and temporal signals, finally
sort by similarity descending and truncate to `topK`. -/
noncomputable def generateCandidates (claim : Claim) (allClaims : List Claim)
    (claimsWithEmbeddings : List ClaimWithEmbedding) (topK : Nat)
    (similarityThreshold : ℝ) : List CandidatePair :=
  (List.insertionSort simGE
    (genStages claim allClaims claimsWithEmbeddings topK similarityThreshold).candidates).take
    topK

/-! ## Pair classification and the run loop -/

/-- Observable outcome of one `detectContradictionInPair` call:
`nullSkip` is the defensive early `return null` (the classifier is never
invoked), `thrown` is an exception escaping from the external classifier,
`nullConsistent` is a `CONSISTENT` verdict, `record` a created
`Contradiction`. -/
inductive PairOutcome
  | nullSkip
  | thrown
  | nullConsistent
  | record (c : Contradiction)
deriving DecidableEq

/-- `detectContradictionInPair` (lines 603-663).  `classify` is the
external `detectContradiction(prompt)` call: `none` models a throw.
`uuid` models the external `uuidv4()` generator. -/
def detectContradictionInPair (classify : Claim → Claim → Option ContradictionJudgment)
    (uuid : String) (claimA claimB : Claim) : PairOutcome :=
  if claimA.id = claimB.id then PairOutcome.nullSkip
  else if claimA.utteranceId = claimB.utteranceId then PairOutcome.nullSkip
  else
    match classify claimA claimB with
    | none => PairOutcome.thrown
    | some judgment =>
      if judgment.label = Label.CONSISTENT then PairOutcome.nullConsistent
      else
        PairOutcome.record
          ⟨uuid, claimA, claimB, labelToType judgment.label,
            judgment.explanation, judgment.confidence⟩

/-- The run-wide mutable state of `findContradictions`: the growing
`contradictions` list, the `pairsAnalyzed` counter, the `alreadyCompared`
pair-key set, plus `submitted`, an instrumentation trace listing
`(claimA.id, claimB.id)` for every pair on which the external classifier
is actually invoked. -/
structure RunState where
  contradictions : List Contradiction
  pairsAnalyzed : Nat
  alreadyCompared : List String
  submitted : List (String × String)
deriving DecidableEq

/-- The inner candidate loop of `findContradictions` (lines 438-462):
pair-key dedup, then classification.  A throw from the classifier
(`PairOutcome.thrown`) escapes to the per-claim `catch` (line 463), so the
remaining candidates of the current claim are abandoned and the state
reached so far is returned. -/
def processCandidates (classify : Claim → Claim → Option ContradictionJudgment)
    (uuid : String) : List CandidatePair → RunState → RunState
  | [], st => st
  | candidate :: rest, st =>
    let pairKey := getPairKey candidate.claimA.id candidate.claimB.id
    if pairKey ∈ st.alreadyCompared then processCandidates classify uuid rest st
    else
      let st1 : RunState :=
        { st with
          alreadyCompared := pairKey :: st.alreadyCompared
          pairsAnalyzed := st.pairsAnalyzed + 1 }
      match detectContradictionInPair classify uuid candidate.claimA candidate.claimB with
      | PairOutcome.nullSkip => processCandidates classify uuid rest st1
      | PairOutcome.thrown =>
        { st1 with submitted := st1.submitted ++ [(candidate.claimA.id, candidate.claimB.id)] }
      | PairOutcome.nullConsistent =>
        processCandidates classify uuid rest
          { st1 with submitted := st1.submitted ++ [(candidate.claimA.id, candidate.claimB.id)] }
      | PairOutcome.record c =>
        processCandidates classify uuid rest
          { st1 with
            submitted := st1.submitted ++ [(candidate.claimA.id, candidate.claimB.id)]
            contradictions := st1.contradictions ++ [c] }

/-- One iteration of the outer claim loop of `findContradictions`:
generate candidates for the claim and run the candidate loop.
`generateCandidates` cannot throw (its only fallible part is wrapped in
its own catch), so the per-claim `catch` only ever sees classifier
failures, which `processCandidates` already absorbs by early return. -/
noncomputable def claimStep (classify : Claim → Claim → Option ContradictionJudgment)
    (uuid : String) (allClaims : List Claim) (claimsWithEmbeddings : List ClaimWithEmbedding)
    (topK : Nat) (similarityThreshold : ℝ) (st : RunState) (claim : Claim) : RunState :=
  processCandidates classify uuid
    (generateCandidates claim allClaims claimsWithEmbeddings topK similarityThreshold) st

/-- `findContradictions` (lines 393-481): zip claims with their
embeddings when provided, then fold the per-claim step over the claims in
document order.  Progress callbacks and the rate-limiting sleep are
observationally inert and are not modelled. -/
noncomputable def findContradictions (classify : Claim → Claim → Option ContradictionJudgment)
    (uuid : String) (claims : List Claim) (topK : Nat) (similarityThreshold : ℝ)
    (embeddings : Option (List (List ℝ))) : RunState :=
  let claimsWithEmbeddings : List ClaimWithEmbedding :=
    match embeddings with
    | some es => (claims.zip es).map (fun p => ⟨p.1, p.2⟩)
    | none => []
  claims.foldl (claimStep classify uuid claims claimsWithEmbeddings topK similarityThreshold)
    ⟨[], 0, [], []⟩

/-! ## Transcript segmenter — `webapp/src/services/parser.ts`
(the production version, lines 254-676 of the concatenated source file).
Only the fields of `Document` that the segmenter reads are modelled. -/

structure Document where
  id : String
  title : String
  rawText : String
deriving DecidableEq

structure ParsedLine where
  pageNumber : Nat
  lineNumber : Option Nat
  text : String
  charOffset : Nat
deriving DecidableEq

/-- The page-marker probe of `parseIntoLines` (line 452):
`/^(?:---\s*|\[\s*)?Page\s+(\d+)(?:\s*---|\s*\])?/i`.  The three
alternatives of the optional head group are tried in order, as the regex
engine backtracks; the optional tail group never affects the capture. -/
def pageMarkerNum (t : List Char) : Option Nat :=
  let dashTry : Option Nat :=
    match t with
    | '-' :: '-' :: '-' :: rest => pageAt (rest.dropWhile isWs)
    | _ => none
  let bracketTry : Option Nat :=
    match t with
    | '[' :: rest => pageAt (rest.dropWhile isWs)
    | _ => none
  (dashTry.orElse (fun _ => bracketTry)).orElse (fun _ => pageAt t)

/-- The two-character `Q.`/`A.`/`Q:`/`A:` alternation (with the `i`
flag) at the end of the line-number probe. -/
def qaMarkerTwo (t : List Char) : Option (List Char) :=
  match t with
  | c :: p :: rest =>
    if (c.toLower = 'q' ∨ c.toLower = 'a') ∧ (p = '.' ∨ p = ':') then some rest else none
  | _ => none

/-- The line-number probe of `parseIntoLines` (line 463):
`/^\s*(\d+)\.?\s+(Q\.|A\.|Q:|A:)/i`.  On success it returns the captured
number and the remainder after the whole match — note that the matched
text, which `parseIntoLines` strips from the line, includes the
`Q.`/`A.` marker itself. -/
def lineNumberQA (t : List Char) : Option (Nat × List Char) := do
  let t1 := t.dropWhile isWs
  let (n, t2) ← takeDigits t1
  let t3 := match t2 with
    | '.' :: r => r
    | _ => t2
  let t4 ← takeWs1 t3
  let rest ← qaMarkerTwo t4
  pure (n, rest)

/-- The line loop of `parseIntoLines` (lines 448-483), with the running
page number and character offset as accumulator arguments. -/
def parseLinesLoop : List String → Nat → Nat → List ParsedLine
  | [], _, _ => []
  | line :: rest, currentPage, charOffset =>
    match pageMarkerNum line.toList with
    | some n => parseLinesLoop rest n (charOffset + line.length + 1)
    | none =>
      match lineNumberQA line.toList with
      | some (num, remainder) =>
        let cleanText := trimWs (String.mk remainder)
        (if cleanText.length > 0 then [⟨currentPage, some num, cleanText, charOffset⟩] else [])
          ++ parseLinesLoop rest currentPage (charOffset + line.length + 1)
      | none =>
        let cleanText := trimWs line
        (if cleanText.length > 0 then [⟨currentPage, none, cleanText, charOffset⟩] else [])
          ++ parseLinesLoop rest currentPage (charOffset + line.length + 1)

/-- `parseIntoLines` (lines 441-486). -/
def parseIntoLines (text : String) : List ParsedLine :=
  parseLinesLoop (splitNl text) 1 0

/-- Drop one optional `.` or `:` (the `[.:]?` of the opener regexes). -/
def dropOptPunct (t : List Char) : List Char :=
  match t with
  | p :: r => if p = '.' ∨ p = ':' then r else p :: r
  | [] => []

/-- `/^Q[.:]?\s*/i` and `/^A[.:]?\s*/i` (lines 510-511): any line whose
first letter is the given one matches; the consumed marker is just that
letter plus optional punctuation and whitespace.  Returns the remainder
after the match. -/
def qaOpen (letter : Char) (t : List Char) : Option (List Char) :=
  match t with
  | c :: rest => if c.toLower = letter then some ((dropOptPunct rest).dropWhile isWs) else none
  | [] => none

/-- `/^QUESTION[.:]?\s*/i` and `/^ANSWER[.:]?\s*/i` (lines 512-513). -/
def wordOpen (word : List Char) (t : List Char) : Option (List Char) :=
  match stripCI word t with
  | some r => some ((dropOptPunct r).dropWhile isWs)
  | none => none

/-- The speaker alternation `(MR\.|MS\.|THE|DR\.)` with the `i` flag;
the result is the group upper-cased, as `speakerMatch[1].toUpperCase()`
computes.  No input can match two alternatives, so trying them in order
is equivalent to the regex engine. -/
def speakerAlt (t : List Char) : Option (String × List Char) :=
  match stripCI ['m', 'r', '.'] t with
  | some r => some ("MR.", r)
  | none =>
    match stripCI ['m', 's', '.'] t with
    | some r => some ("MS.", r)
    | none =>
      match stripCI ['t', 'h', 'e'] t with
      | some r => some ("THE", r)
      | none =>
        match stripCI ['d', 'r', '.'] t with
        | some r => some ("DR.", r)
        | none => none

/-- `/^(MR\.|MS\.|THE|DR\.)\s+([A-Z]+)[.:]?\s*/i` (line 516): speaker
type, upper-cased speaker name, and the remainder after the match. -/
def speakerMark (t : List Char) : Option (String × String × List Char) := do
  let (speakerType, r1) ← speakerAlt t
  let r2 ← takeWs1 r1
  let nameChars := r2.takeWhile isLetterC
  match nameChars with
  | [] => none
  | _ =>
    let r3 := (dropOptPunct (r2.dropWhile isLetterC)).dropWhile isWs
    pure (speakerType, strToUpper (String.mk nameChars), r3)

/-- `isHeaderLine` (lines 581-599). -/
def isHeaderLine (text : String) : Bool :=
  let t := text.toList
  (stripCI "deposition of".toList t).isSome ||
  (stripCI "case no.".toList t).isSome ||
  (stripCI "date:".toList t).isSome ||
  (stripCI "examination by".toList t).isSome ||
  (stripCI "cross-examination by".toList t).isSome ||
  (stripCI "redirect examination by".toList t).isSome ||
  (stripCI "recross-examination by".toList t).isSome ||
  (stripCI "stipulations".toList t).isSome ||
  (stripCI "exhibits".toList t).isSome ||
  (stripCI "whereupon".toList t).isSome ||
  (match t with
   | '(' :: rest => rest.getLast? == some ')'
   | _ => false) ||
  (decide (3 ≤ t.length) && t.all (fun c => c = '-'))

/-- The `currentUtterance` accumulator of `extractUtterances`:
role, buffered lines, and the (unused downstream) `startLine`. -/
structure UttState where
  role : Option Role
  lines : List ParsedLine
  startLine : Option Nat

/-- `createUtterance` (lines 601-646).  Callers only invoke it with a
non-empty line buffer; the `headD`/`getLastD` defaults are never read.
`uuid` models the external `uuidv4()` generator. -/
def createUtterance (uuid documentId : String) (role : Role) (lines : List ParsedLine) :
    Utterance :=
  let firstLine := lines.headD ⟨1, none, "", 0⟩
  let lastLine := lines.getLastD ⟨1, none, "", 0⟩
  let pageNumber := firstLine.pageNumber
  let lineStart := firstLine.lineNumber
  let lineEnd := lastLine.lineNumber
  let text := trimWs (joinSep " " ((lines.map (fun l => l.text)).filter (fun t => t.length > 0)))
  let citation := formatCitation
    ⟨pageNumber, lineStart,
      if lineEnd ≠ lineStart then lineEnd else none,
      if lineStart = none then some firstLine.charOffset else none, none⟩
  let speaker := match role with
    | Role.QUESTION => "Attorney"
    | Role.ANSWER => "Witness"
  ⟨uuid, documentId, pageNumber, lineStart, lineEnd, speaker, role, text, citation⟩

/-- The save of the previous utterance performed before each opener and at
the end of input: emit only when a role is set and the buffer is
non-empty. -/
def flushUtt (uuid documentId : String) (st : UttState) : List Utterance :=
  match st.role with
  | some r => if st.lines ≠ [] then [createUtterance uuid documentId r st.lines] else []
  | none => []

/-- The line loop of `extractUtterances` (lines 503-577): question
openers (`Q`/`QUESTION`), answer openers (`A`/`ANSWER`), speaker headers
with the witness heuristic, and continuation lines with the header
filter. -/
def extractLoop (uuid documentId : String) : List ParsedLine → UttState → List Utterance
  | [], st => flushUtt uuid documentId st
  | line :: rest, st =>
    let t := line.text.toList
    let qOpen := (qaOpen 'q' t).orElse (fun _ => wordOpen "question".toList t)
    let aOpen := (qaOpen 'a' t).orElse (fun _ => wordOpen "answer".toList t)
    match qOpen with
    | some remainder =>
      flushUtt uuid documentId st ++
        extractLoop uuid documentId rest
          ⟨some Role.QUESTION, [{ line with text := trimWs (String.mk remainder) }],
            line.lineNumber⟩
    | none =>
      match aOpen with
      | some remainder =>
        flushUtt uuid documentId st ++
          extractLoop uuid documentId rest
            ⟨some Role.ANSWER, [{ line with text := trimWs (String.mk remainder) }],
              line.lineNumber⟩
      | none =>
        match speakerMark t with
        | some (speakerType, speakerName, remainder) =>
          let isWitness : Bool :=
            speakerType = "THE" ∨ speakerName = "WITNESS" ∨ st.role = some Role.QUESTION
          flushUtt uuid documentId st ++
            extractLoop uuid documentId rest
              ⟨some (if isWitness then Role.ANSWER else Role.QUESTION),
                [{ line with text := trimWs (String.mk remainder) }], line.lineNumber⟩
        | none =>
          if st.role.isSome then
            if isHeaderLine line.text then extractLoop uuid documentId rest st
            else extractLoop uuid documentId rest { st with lines := st.lines ++ [line] }
          else extractLoop uuid documentId rest st

/-- `extractUtterances` (lines 490-579). -/
def extractUtterances (uuid : String) (document : Document) : List Utterance :=
  extractLoop uuid document.id (parseIntoLines document.rawText) ⟨none, [], none⟩

theorem extractUtterances_sample_pair :
    (extractUtterances "u" ⟨"d", "t", "Q. Were you there?\nA. Yes, I was."⟩).map
      (fun u => (u.role, u.text))
      = [(Role.QUESTION, "Were you there?"), (Role.ANSWER, "Yes, I was.")] := by decide

theorem extractUtterances_sample_page :
    (extractUtterances "u" ⟨"d", "t", "Page 2\nQ. Where?\nIn court.\nA. Yes."⟩).map
      (fun u => (u.pageNumber, u.role, u.text))
      = [(2, Role.QUESTION, "Where? In court."), (2, Role.ANSWER, "Yes.")] := by decide

/-! ## Claim extraction — `webapp/src/services/claimExtractor.ts` -/

structure ClaimExtraction where
  normalized_text : String
  polarity : Polarity
  modality : Modality
  time_scope : Option String
  entities : List String
  topics : List String
deriving DecidableEq

/-- The `Claim` construction of `extractClaimsFromUtterance`
(claimExtractor.ts lines 59-71): ids from the external uuid generator,
citation inherited verbatim from the parent utterance. -/
def mkClaim (uuid : String) (utterance : Utterance) (extraction : ClaimExtraction) : Claim :=
  ⟨uuid, utterance.id, utterance.documentId, extraction.normalized_text,
    extraction.polarity, extraction.modality, extraction.time_scope,
    extraction.entities, extraction.topics, utterance.citation⟩

/-- `extractClaimsFromUtterances` (claimExtractor.ts lines 16-49): only
ANSWER utterances are used; a throw from the external extractor (`none`)
is caught per utterance, which then contributes no claims. -/
def extractClaimsFromUtterances (extract : Utterance → Option (List ClaimExtraction))
    (uuid : String) (utterances : List Utterance) : List Claim :=
  ((utterances.filter (fun u => u.role = Role.ANSWER)).map
    (fun u => ((extract u).getD []).map (mkClaim uuid u))).flatten

/-! ## The upload pipeline — `App.tsx` (`handleFileSelected`) -/

structure ReportStatistics where
  totalClaims : Nat
  totalContradictions : Nat
  hardContradictions : Nat
  softInconsistencies : Nat
deriving DecidableEq

/-- The `Report` shape of `types/index.ts` restricted to the fields the
pipeline claims mention; `generateReport` itself is an external
collaborator here (its source file is not part of the ingested tree). -/
structure Report where
  documentId : String
  documentTitle : String
  summary : String
  statistics : ReportStatistics
deriving DecidableEq

/-- The analysis pipeline of `handleFileSelected` (App.tsx, lines 182-311
of `src/unnamed/part_007`) from utterance extraction onward: the
zero-ANSWER guard (lines 206-210), claim extraction, the valid-claim
filter and guard (lines 243-251), batch embedding (a `none` from the
external `generateBatchEmbeddings` is the caught embedding error: error
status, no report), contradiction detection with `topK = 10` and
threshold `0.6`, then report generation via the external `genReport`. -/
noncomputable def runPipeline
    (extract : Utterance → Option (List ClaimExtraction))
    (embedBatch : List String → Option (List (List ℝ)))
    (classify : Claim → Claim → Option ContradictionJudgment)
    (genReport : Document → List Claim → List Contradiction → Report)
    (uuid : String) (document : Document) : Except String Report :=
  let utterances := extractUtterances uuid document
  let answerCount := (utterances.filter (fun u => u.role = Role.ANSWER)).length
  if answerCount = 0 then
    Except.error "No Q&A pairs found in document. Please ensure the transcript uses \"Q.\" and \"A.\" format for questions and answers."
  else
    let claims := extractClaimsFromUtterances extract uuid utterances
    let validClaims := claims.filter
      (fun c => c.normalizedText ≠ "" ∧ 0 < (trimWs c.normalizedText).length)
    if validClaims.length = 0 then
      Except.error "No valid claims found for embedding generation"
    else
      match embedBatch (validClaims.map (fun c => c.normalizedText)) with
      | none => Except.error "Embedding generation failed"
      | some embeddings =>
        let contradictions :=
          (findContradictions classify uuid validClaims 10 (6 / 10 : ℝ)
            (some embeddings)).contradictions
        Except.ok (genReport document validClaims contradictions)

/-! ## Lemmas about the similarity engine -/

theorem sumProd_cons (x y : ℝ) (t u : List ℝ) :
    sumProd (x :: t) (y :: u) = x * y + sumProd t u := by
  simp [sumProd]

theorem sumProd_comm (a : List ℝ) : ∀ b : List ℝ, sumProd a b = sumProd b a := by
  induction a with
  | nil => intro b; cases b <;> simp [sumProd]
  | cons x t ih =>
    intro b
    cases b with
    | nil => simp [sumProd]
    | cons y u => rw [sumProd_cons, sumProd_cons, mul_comm, ih u]

theorem sumProd_self_nonneg (a : List ℝ) : 0 ≤ sumProd a a := by
  induction a with
  | nil => simp [sumProd]
  | cons x t ih =>
    rw [sumProd_cons]
    exact add_nonneg (mul_self_nonneg x) ih

theorem sumProd_self_pos (a : List ℝ) (h : ∃ x ∈ a, x ≠ 0) : 0 < sumProd a a := by
  induction a with
  | nil => simp at h
  | cons x t ih =>
    rcases h with ⟨y, hy, hy0⟩
    rw [sumProd_cons]
    rcases List.mem_cons.mp hy with rfl | hyt
    · exact add_pos_of_pos_of_nonneg (mul_self_pos.mpr hy0) (sumProd_self_nonneg t)
    · exact add_pos_of_nonneg_of_pos (mul_self_nonneg x) (ih ⟨y, hyt, hy0⟩)

theorem cosineSimilarity_self (v : List ℝ) (h : ∃ x ∈ v, x ≠ 0) :
    cosineSimilarity v v = Except.ok 1 := by
  have hpos := sumProd_self_pos v h
  have hs : Real.sqrt (sumProd v v) ≠ 0 := (Real.sqrt_pos.mpr hpos).ne'
  simp only [cosineSimilarity]
  rw [if_neg (by simp), if_neg (by push_neg; exact ⟨hs, hs⟩),
    Real.mul_self_sqrt hpos.le, div_self hpos.ne']

theorem cosineSimilarity_comm (a b : List ℝ) (h : a.length = b.length) :
    cosineSimilarity a b = cosineSimilarity b a := by
  simp only [cosineSimilarity]
  rw [sumProd_comm a b,
    if_neg (show ¬(a.length ≠ b.length) by simp [h]),
    if_neg (show ¬(b.length ≠ a.length) by simp [h])]
  by_cases hz : Real.sqrt (sumProd a a) = 0 ∨ Real.sqrt (sumProd b b) = 0
  · rw [if_pos hz, if_pos (Or.symm hz)]
  · rw [if_neg hz, if_neg (fun hc => hz (Or.symm hc)), mul_comm]

theorem cosineSimilarity_ok_of_length_eq (a b : List ℝ) (h : a.length = b.length) :
    ∃ r, cosineSimilarity a b = Except.ok r := by
  simp only [cosineSimilarity]
  rw [if_neg (by simp [h])]
  by_cases hz : Real.sqrt (sumProd a a) = 0 ∨ Real.sqrt (sumProd b b) = 0
  · exact ⟨0, by rw [if_pos hz]⟩
  · exact ⟨_, by rw [if_neg hz]⟩

theorem cosineSimilarity_error_iff (a b : List ℝ) :
    (∃ e, cosineSimilarity a b = Except.error e) ↔ a.length ≠ b.length := by
  constructor
  · rintro ⟨e, he⟩
    intro hlen
    obtain ⟨r, hr⟩ := cosineSimilarity_ok_of_length_eq a b hlen
    rw [hr] at he
    exact Except.noConfusion he
  · intro hlen
    refine ⟨"Vectors must have the same length", ?_⟩
    simp only [cosineSimilarity]
    rw [if_pos hlen]

theorem cosineSimilarity_zero_norm (a b : List ℝ) (h : a.length = b.length)
    (h0 : Real.sqrt (sumProd a a) = 0 ∨ Real.sqrt (sumProd b b) = 0) :
    cosineSimilarity a b = Except.ok 0 := by
  simp only [cosineSimilarity]
  rw [if_neg (by simp [h]), if_pos h0]

/-! ## Lemmas about candidate generation -/

/-- Invariant threaded through the signal stages of `generateCandidates`:
partner ids are pairwise distinct, every partner id is recorded in
`seenIds`, and the query claim id is in `seenIds`. -/
def GenInv (claim : Claim) (st : GenState) : Prop :=
  (st.candidates.map (fun p => p.claimB.id)).Nodup ∧
  (∀ p ∈ st.candidates, p.claimB.id ∈ st.seenIds) ∧
  claim.id ∈ st.seenIds

theorem pushLexical_seen_mono (claim : Claim) (su : List String) (test : Claim → Bool)
    (score : ℝ) (reason : Reason) :
    ∀ (l : List Claim) (st : GenState),
      st.seenIds ⊆ (pushLexical claim su test score reason l st).seenIds := by
  intro l
  induction l with
  | nil =>
    intro st
    simp only [pushLexical]
    exact fun x hx => hx
  | cons c rest ih =>
    intro st
    simp only [pushLexical]
    split_ifs with h1 h2 h3
    · exact ih st
    · exact ih st
    · exact fun x hx => ih _ (List.mem_cons_of_mem _ hx)
    · exact ih st

theorem pushLexical_covers (claim : Claim) (su : List String) (test : Claim → Bool)
    (score : ℝ) (reason : Reason) :
    ∀ (l : List Claim) (st : GenState) (b : Claim), b ∈ l → b.id ∉ su → test b = true →
      b.id ∈ (pushLexical claim su test score reason l st).seenIds := by
  intro l
  induction l with
  | nil =>
    intro st b hb
    simp at hb
  | cons c rest ih =>
    intro st b hb hbsu hbt
    rcases List.mem_cons.mp hb with rfl | hbr
    · simp only [pushLexical]
      split_ifs with h1
      · exact pushLexical_seen_mono claim su test score reason rest st h1
      · exact pushLexical_seen_mono claim su test score reason rest _
          (List.mem_cons_self _ _)
    · simp only [pushLexical]
      split_ifs with h1 h2 h3
      · exact ih st b hbr hbsu hbt
      · exact ih st b hbr hbsu hbt
      · exact ih _ b hbr hbsu hbt
      · exact ih st b hbr hbsu hbt

theorem pushLexical_shape (claim : Claim) (su : List String) (test : Claim → Bool)
    (score : ℝ) (reason : Reason) :
    ∀ (l : List Claim) (st : GenState),
      ∀ p ∈ (pushLexical claim su test score reason l st).candidates,
        p ∈ st.candidates ∨
          (p.claimA = claim ∧ p.similarity = score ∧ p.reason = reason ∧ p.claimB ∈ l ∧
            test p.claimB = true ∧ p.claimB.id ∉ st.seenIds ∧ p.claimB.id ∉ su) := by
  intro l
  induction l with
  | nil =>
    intro st p hp
    simp only [pushLexical] at hp
    exact Or.inl hp
  | cons c rest ih =>
    intro st p hp
    simp only [pushLexical] at hp
    split_ifs at hp with h1 h2 h3
    · rcases ih st p hp with h | h
      · exact Or.inl h
      · obtain ⟨ha, hs, hr, hb, ht, hseen, hsu⟩ := h
        exact Or.inr ⟨ha, hs, hr, List.mem_cons_of_mem _ hb, ht, hseen, hsu⟩
    · rcases ih st p hp with h | h
      · exact Or.inl h
      · obtain ⟨ha, hs, hr, hb, ht, hseen, hsu⟩ := h
        exact Or.inr ⟨ha, hs, hr, List.mem_cons_of_mem _ hb, ht, hseen, hsu⟩
    · rcases ih _ p hp with h | h
      · rcases List.mem_append.mp h with h' | h'
        · exact Or.inl h'
        · rw [List.mem_singleton] at h'
          subst h'
          exact Or.inr ⟨rfl, rfl, rfl, List.mem_cons_self _ _, h3, h1, h2⟩
      · obtain ⟨ha, hs, hr, hb, ht, hseen, hsu⟩ := h
        exact Or.inr ⟨ha, hs, hr, List.mem_cons_of_mem _ hb, ht,
          fun hx => hseen (List.mem_cons_of_mem _ hx), hsu⟩
    · rcases ih st p hp with h | h
      · exact Or.inl h
      · obtain ⟨ha, hs, hr, hb, ht, hseen, hsu⟩ := h
        exact Or.inr ⟨ha, hs, hr, List.mem_cons_of_mem _ hb, ht, hseen, hsu⟩

theorem pushLexical_inv (claim : Claim) (su : List String) (test : Claim → Bool)
    (score : ℝ) (reason : Reason) :
    ∀ (l : List Claim) (st : GenState), GenInv claim st →
      GenInv claim (pushLexical claim su test score reason l st) := by
  intro l
  induction l with
  | nil =>
    intro st h
    simpa only [pushLexical] using h
  | cons c rest ih =>
    intro st h
    obtain ⟨hnd, hmem, hcl⟩ := h
    simp only [pushLexical]
    split_ifs with h1 h2 h3
    · exact ih st ⟨hnd, hmem, hcl⟩
    · exact ih st ⟨hnd, hmem, hcl⟩
    · apply ih
      refine ⟨?_, ?_, ?_⟩
      · rw [List.map_append, List.nodup_append]
        refine ⟨hnd, List.nodup_singleton _, ?_⟩
        intro a ha hb
        simp only [List.map_cons, List.map_nil, List.mem_singleton] at hb
        subst hb
        obtain ⟨p, hp, hpe⟩ := List.mem_map.mp ha
        exact h1 (hpe ▸ hmem p hp)
      · intro p hp
        rcases List.mem_append.mp hp with h' | h'
        · exact List.mem_cons_of_mem _ (hmem p h')
        · rw [List.mem_singleton] at h'
          subst h'
          exact List.mem_cons_self _ _
      · exact List.mem_cons_of_mem _ hcl
    · exact ih st ⟨hnd, hmem, hcl⟩

theorem pushSemanticResults_seen_mono (claim : Claim) (oc : List ClaimWithEmbedding)
    (su : List String) :
    ∀ (rs : List VectorSearchResult) (st : GenState),
      st.seenIds ⊆ (pushSemanticResults claim oc su rs st).seenIds := by
  intro rs
  induction rs with
  | nil =>
    intro st
    simp only [pushSemanticResults]
    exact fun x hx => hx
  | cons r rest ih =>
    intro st
    cases hce : oc.get? r.index with
    | none =>
      simp only [pushSemanticResults, hce]
      exact ih st
    | some ce =>
      simp only [pushSemanticResults, hce]
      split_ifs with h1 h2
      · exact ih st
      · exact ih st
      · exact fun x hx => ih _ (List.mem_cons_of_mem _ hx)

theorem pushSemanticResults_shape (claim : Claim) (oc : List ClaimWithEmbedding)
    (su : List String) :
    ∀ (rs : List VectorSearchResult) (st : GenState),
      ∀ p ∈ (pushSemanticResults claim oc su rs st).candidates,
        p ∈ st.candidates ∨
          (p.claimA = claim ∧ p.reason = Reason.semantic ∧
            (∃ ce ∈ oc, p.claimB = ce.claim) ∧
            p.claimB.id ∉ st.seenIds ∧ p.claimB.id ∉ su) := by
  intro rs
  induction rs with
  | nil =>
    intro st p hp
    simp only [pushSemanticResults] at hp
    exact Or.inl hp
  | cons r rest ih =>
    intro st p hp
    cases hce : oc.get? r.index with
    | none =>
      simp only [pushSemanticResults, hce] at hp
      exact ih st p hp
    | some ce =>
      simp only [pushSemanticResults, hce] at hp
      split_ifs at hp with h1 h2
      · exact ih st p hp
      · exact ih st p hp
      · rcases ih _ p hp with h | h
        · rcases List.mem_append.mp h with h' | h'
          · exact Or.inl h'
          · rw [List.mem_singleton] at h'
            subst h'
            exact Or.inr ⟨rfl, rfl, ⟨ce, List.get?_mem hce, rfl⟩, h1, h2⟩
        · obtain ⟨ha, hr, hb, hseen, hsu⟩ := h
          exact Or.inr ⟨ha, hr, hb, fun hx => hseen (List.mem_cons_of_mem _ hx), hsu⟩

theorem pushSemanticResults_inv (claim : Claim) (oc : List ClaimWithEmbedding)
    (su : List String) :
    ∀ (rs : List VectorSearchResult) (st : GenState), GenInv claim st →
      GenInv claim (pushSemanticResults claim oc su rs st) := by
  intro rs
  induction rs with
  | nil =>
    intro st h
    simpa only [pushSemanticResults] using h
  | cons r rest ih =>
    intro st h
    obtain ⟨hnd, hmem, hcl⟩ := h
    cases hce : oc.get? r.index with
    | none =>
      simp only [pushSemanticResults, hce]
      exact ih st ⟨hnd, hmem, hcl⟩
    | some ce =>
      simp only [pushSemanticResults, hce]
      split_ifs with h1 h2
      · exact ih st ⟨hnd, hmem, hcl⟩
      · exact ih st ⟨hnd, hmem, hcl⟩
      · apply ih
        refine ⟨?_, ?_, ?_⟩
        · rw [List.map_append, List.nodup_append]
          refine ⟨hnd, List.nodup_singleton _, ?_⟩
          intro a ha hb
          simp only [List.map_cons, List.map_nil, List.mem_singleton] at hb
          subst hb
          obtain ⟨p, hp, hpe⟩ := List.mem_map.mp ha
          exact h1 (hpe ▸ hmem p hp)
        · intro p hp
          rcases List.mem_append.mp hp with h' | h'
          · exact List.mem_cons_of_mem _ (hmem p h')
          · rw [List.mem_singleton] at h'
            subst h'
            exact List.mem_cons_self _ _
        · exact List.mem_cons_of_mem _ hcl

theorem semanticStage_shape (claim : Claim) (su : List String)
    (cwe : List ClaimWithEmbedding) (topK : Nat) (threshold : ℝ) (st0 : GenState) :
    ∀ p ∈ (semanticStage claim su cwe topK threshold st0).candidates,
      p ∈ st0.candidates ∨
        (p.claimA = claim ∧ p.reason = Reason.semantic ∧
          (∃ ce ∈ cwe, p.claimB = ce.claim ∧ p.claimB.id ≠ claim.id) ∧
          p.claimB.id ∉ st0.seenIds ∧ p.claimB.id ∉ su) := by
  intro p hp
  unfold semanticStage at hp
  split_ifs at hp with hlen
  · cases hfind : cwe.find? (fun ce => ce.claim.id = claim.id) with
    | none =>
      rw [hfind] at hp
      exact Or.inl hp
    | some cur =>
      simp only [hfind] at hp
      cases hfs : findSimilarVectors cur.embedding
          ((otherClaimsOf claim su cwe).map (fun ce => ce.embedding)) (topK * 2) threshold with
      | error e =>
        simp only [hfs] at hp
        exact Or.inl hp
      | ok results =>
        simp only [hfs] at hp
        rcases pushSemanticResults_shape claim (otherClaimsOf claim su cwe) su results st0
            p hp with h | h
        · exact Or.inl h
        · obtain ⟨ha, hr, ⟨ce, hce, hbe⟩, hseen, hsu⟩ := h
          have hmem := List.mem_filter.mp hce
          have hprop := of_decide_eq_true hmem.2
          exact Or.inr ⟨ha, hr, ⟨ce, hmem.1, hbe, hbe ▸ hprop.1⟩, hseen, hsu⟩
  · exact Or.inl hp

theorem semanticStage_seen_mono (claim : Claim) (su : List String)
    (cwe : List ClaimWithEmbedding) (topK : Nat) (threshold : ℝ) (st0 : GenState) :
    st0.seenIds ⊆ (semanticStage claim su cwe topK threshold st0).seenIds := by
  unfold semanticStage
  split_ifs with hlen
  · cases hfind : cwe.find? (fun ce => ce.claim.id = claim.id) with
    | none =>
      simp only [hfind]
      exact fun x hx => hx
    | some cur =>
      simp only [hfind]
      cases hfs : findSimilarVectors cur.embedding
          ((otherClaimsOf claim su cwe).map (fun ce => ce.embedding)) (topK * 2) threshold with
      | error e =>
        simp only [hfs]
        exact fun x hx => hx
      | ok results =>
        simp only [hfs]
        exact pushSemanticResults_seen_mono claim _ su results st0
  · exact fun x hx => hx

theorem semanticStage_inv (claim : Claim) (su : List String)
    (cwe : List ClaimWithEmbedding) (topK : Nat) (threshold : ℝ) (st0 : GenState)
    (h : GenInv claim st0) : GenInv claim (semanticStage claim su cwe topK threshold st0) := by
  unfold semanticStage
  split_ifs with hlen
  · cases hfind : cwe.find? (fun ce => ce.claim.id = claim.id) with
    | none =>
      simp only [hfind]
      exact h
    | some cur =>
      simp only [hfind]
      cases hfs : findSimilarVectors cur.embedding
          ((otherClaimsOf claim su cwe).map (fun ce => ce.embedding)) (topK * 2) threshold with
      | error e =>
        simp only [hfs]
        exact h
      | ok results =>
        simp only [hfs]
        exact pushSemanticResults_inv claim _ su results st0 h
  · exact h

/-- A claim of `allClaims` in the query utterance has its id in
`sameUtteranceIdsOf`. -/
theorem mem_sameUtteranceIdsOf (claim b : Claim) (allClaims : List Claim)
    (hb : b ∈ allClaims) (hu : b.utteranceId = claim.utteranceId) :
    b.id ∈ sameUtteranceIdsOf claim allClaims := by
  unfold sameUtteranceIdsOf
  exact List.mem_map.mpr ⟨b, List.mem_filter.mpr ⟨hb, decide_eq_true hu⟩, rfl⟩

/-- Everything true of a candidate pair produced by the signal stages:
the query claim is always `claimA`, the partner never shares its id or
utterance-id set, and the reason determines both the fixed score and the
fact that no earlier lexical signal claimed the partner first. -/
def CandidateProp (claim : Claim) (allClaims : List Claim)
    (cwe : List ClaimWithEmbedding) (p : CandidatePair) : Prop :=
  p.claimA = claim ∧
  p.claimB.id ≠ claim.id ∧
  p.claimB.id ∉ sameUtteranceIdsOf claim allClaims ∧
  ((p.reason = Reason.semantic ∧ ∃ ce ∈ cwe, p.claimB = ce.claim) ∨
   (p.reason = Reason.entity ∧ p.similarity = 0.8 ∧ p.claimB ∈ allClaims ∧
     sharedEntities claim p.claimB ≠ []) ∨
   (p.reason = Reason.topic ∧ p.similarity = 0.7 ∧ p.claimB ∈ allClaims ∧
     sharedTopics claim p.claimB ≠ [] ∧ sharedEntities claim p.claimB = []) ∨
   (p.reason = Reason.temporal ∧ p.similarity = 0.75 ∧ p.claimB ∈ allClaims ∧
     sharedEntities claim p.claimB = [] ∧ sharedTopics claim p.claimB = []))

theorem genStages_mem (claim : Claim) (allClaims : List Claim)
    (cwe : List ClaimWithEmbedding) (topK : Nat) (threshold : ℝ) :
    ∀ p ∈ (genStages claim allClaims cwe topK threshold).candidates,
      CandidateProp claim allClaims cwe p := by
  intro p hp
  set su := sameUtteranceIdsOf claim allClaims with hsu
  set st1 := semanticStage claim su cwe topK threshold ⟨[], [claim.id]⟩ with hst1
  set st2 := pushEntity claim su allClaims st1 with hst2
  set st3 := pushTopic claim su allClaims st2 with hst3
  have hcl1 : claim.id ∈ st1.seenIds :=
    semanticStage_seen_mono claim su cwe topK threshold ⟨[], [claim.id]⟩
      (List.mem_singleton_self _)
  have hm12 : st1.seenIds ⊆ st2.seenIds :=
    pushLexical_seen_mono claim su _ 0.8 Reason.entity allClaims st1
  have hm23 : st2.seenIds ⊆ st3.seenIds :=
    pushLexical_seen_mono claim su _ 0.7 Reason.topic allClaims st2
  have hcl2 : claim.id ∈ st2.seenIds := hm12 hcl1
  have hcl3 : claim.id ∈ st3.seenIds := hm23 hcl2
  have main3 : ∀ q ∈ st3.candidates, CandidateProp claim allClaims cwe q := by
    intro q hq3
    rcases pushLexical_shape claim su _ 0.7 Reason.topic allClaims st2 q hq3 with hq2 | hnew3
    · rcases pushLexical_shape claim su _ 0.8 Reason.entity allClaims st1 q hq2 with hq1 | hnew2
      · rcases semanticStage_shape claim su cwe topK threshold ⟨[], [claim.id]⟩ q hq1
            with hq0 | hsem
        · simp at hq0
        · obtain ⟨ha, hr, ⟨ce, hce, hbe, hne⟩, _, hsuq⟩ := hsem
          exact ⟨ha, hne, hsuq, Or.inl ⟨hr, ce, hce, hbe⟩⟩
      · obtain ⟨ha, hsim, hr, hb, ht, hseen, hsuq⟩ := hnew2
        refine ⟨ha, fun he => hseen (he ▸ hcl1), hsuq, Or.inr (Or.inl ⟨hr, hsim, hb, ?_⟩)⟩
        exact of_decide_eq_true ht
    · obtain ⟨ha, hsim, hr, hb, ht, hseen, hsuq⟩ := hnew3
      refine ⟨ha, fun he => hseen (he ▸ hcl2), hsuq,
        Or.inr (Or.inr (Or.inl ⟨hr, hsim, hb, of_decide_eq_true ht, ?_⟩))⟩
      by_contra hne
      exact hseen (pushLexical_covers claim su _ 0.8 Reason.entity allClaims st1 q.claimB hb
        hsuq (decide_eq_true hne))
  have hout : p ∈ (genStages claim allClaims cwe topK threshold).candidates := hp
  rw [genStages] at hout
  cases hts : claim.timeScope with
  | none =>
    simp only [hts] at hout
    exact main3 p hout
  | some scopeA =>
    simp only [hts] at hout
    rcases pushLexical_shape claim su (temporalTest scopeA) 0.75 Reason.temporal allClaims st3
        p hout with hp3 | hnew4
    · exact main3 p hp3
    · obtain ⟨ha, hsim, hr, hb, _, hseen, hsuq⟩ := hnew4
      have hent : sharedEntities claim p.claimB = [] := by
        by_contra hne
        exact hseen (hm23 (pushLexical_covers claim su _ 0.8 Reason.entity allClaims st1
          p.claimB hb hsuq (decide_eq_true hne)))
      have htop : sharedTopics claim p.claimB = [] := by
        by_contra hne
        exact hseen (pushLexical_covers claim su _ 0.7 Reason.topic allClaims st2
          p.claimB hb hsuq (decide_eq_true hne))
      exact ⟨ha, fun he => hseen (he ▸ hcl3), hsuq,
        Or.inr (Or.inr (Or.inr ⟨hr, hsim, hb, hent, htop⟩))⟩

theorem genStages_nodup (claim : Claim) (allClaims : List Claim)
    (cwe : List ClaimWithEmbedding) (topK : Nat) (threshold : ℝ) :
    ((genStages claim allClaims cwe topK threshold).candidates.map
      (fun p => p.claimB.id)).Nodup := by
  have h0 : GenInv claim ⟨[], [claim.id]⟩ :=
    ⟨List.nodup_nil, by intro p hp; simp at hp, List.mem_singleton_self _⟩
  have h1 := semanticStage_inv claim (sameUtteranceIdsOf claim allClaims) cwe topK threshold
    ⟨[], [claim.id]⟩ h0
  have h2 := pushLexical_inv claim (sameUtteranceIdsOf claim allClaims)
    (fun claimB => sharedEntities claim claimB ≠ []) 0.8 Reason.entity allClaims
    (semanticStage claim (sameUtteranceIdsOf claim allClaims) cwe topK threshold
      ⟨[], [claim.id]⟩) h1
  have h3 := pushLexical_inv claim (sameUtteranceIdsOf claim allClaims)
    (fun claimB => sharedTopics claim claimB ≠ []) 0.7 Reason.topic allClaims _ h2
  rw [genStages]
  cases hts : claim.timeScope with
  | none =>
    simp only [hts]
    exact h3.1
  | some scopeA =>
    simp only [hts]
    exact (pushLexical_inv claim (sameUtteranceIdsOf claim allClaims) (temporalTest scopeA)
      0.75 Reason.temporal allClaims _ h3).1

theorem generateCandidates_subset_stages (claim : Claim) (allClaims : List Claim)
    (cwe : List ClaimWithEmbedding) (topK : Nat) (threshold : ℝ) :
    ∀ p ∈ generateCandidates claim allClaims cwe topK threshold,
      p ∈ (genStages claim allClaims cwe topK threshold).candidates := by
  intro p hp
  rw [generateCandidates] at hp
  exact (List.perm_insertionSort simGE _).mem_iff.mp (List.take_subset _ _ hp)

theorem generateCandidates_mem (claim : Claim) (allClaims : List Claim)
    (cwe : List ClaimWithEmbedding) (topK : Nat) (threshold : ℝ) :
    ∀ p ∈ generateCandidates claim allClaims cwe topK threshold,
      CandidateProp claim allClaims cwe p :=
  fun p hp => genStages_mem claim allClaims cwe topK threshold p
    (generateCandidates_subset_stages claim allClaims cwe topK threshold p hp)

theorem generateCandidates_length (claim : Claim) (allClaims : List Claim)
    (cwe : List ClaimWithEmbedding) (topK : Nat) (threshold : ℝ) :
    (generateCandidates claim allClaims cwe topK threshold).length ≤ topK := by
  rw [generateCandidates]
  exact List.length_take_le _ _

theorem generateCandidates_sorted (claim : Claim) (allClaims : List Claim)
    (cwe : List ClaimWithEmbedding) (topK : Nat) (threshold : ℝ) :
    List.Sorted simGE (generateCandidates claim allClaims cwe topK threshold) := by
  rw [generateCandidates]
  exact List.Pairwise.sublist (List.take_sublist _ _) (List.sorted_insertionSort simGE _)

theorem generateCandidates_nodup (claim : Claim) (allClaims : List Claim)
    (cwe : List ClaimWithEmbedding) (topK : Nat) (threshold : ℝ) :
    ((generateCandidates claim allClaims cwe topK threshold).map
      (fun p => p.claimB.id)).Nodup := by
  rw [generateCandidates, List.map_take]
  apply List.Nodup.sublist (List.take_sublist _ _)
  exact ((List.perm_insertionSort simGE _).map (fun p => p.claimB.id)).nodup_iff.mpr
    (genStages_nodup claim allClaims cwe topK threshold)

/-! ## Lemmas about the run loop -/

/-- Invariant of the run state: the pair keys of the (classifier
submission) trace are pairwise distinct, and every submitted key is in
`alreadyCompared`. -/
def RunInv (st : RunState) : Prop :=
  (st.submitted.map (fun q => getPairKey q.1 q.2)).Nodup ∧
  ∀ q ∈ st.submitted, getPairKey q.1 q.2 ∈ st.alreadyCompared

/-- Adding a fresh pair key and its submission entry preserves the run
invariant, whatever happens to the other fields. -/
theorem runInv_submit (st : RunState) (cand : CandidatePair)
    (hseen : getPairKey cand.claimA.id cand.claimB.id ∉ st.alreadyCompared)
    (h : RunInv st) (contr : List Contradiction) (n : Nat) :
    RunInv ⟨contr, n, getPairKey cand.claimA.id cand.claimB.id :: st.alreadyCompared,
      st.submitted ++ [(cand.claimA.id, cand.claimB.id)]⟩ := by
  obtain ⟨hnd, hmem⟩ := h
  constructor
  · rw [List.map_append, List.nodup_append]
    refine ⟨hnd, List.nodup_singleton _, ?_⟩
    intro k hk hk2
    simp only [List.map_cons, List.map_nil, List.mem_singleton] at hk2
    subst hk2
    obtain ⟨q, hq, hqe⟩ := List.mem_map.mp hk
    exact hseen (hqe ▸ hmem q hq)
  · intro q hq
    rcases List.mem_append.mp hq with h' | h'
    · exact List.mem_cons_of_mem _ (hmem q h')
    · rw [List.mem_singleton] at h'
      subst h'
      exact List.mem_cons_self _ _

theorem processCandidates_inv (classify : Claim → Claim → Option ContradictionJudgment)
    (uuid : String) :
    ∀ (cands : List CandidatePair) (st : RunState), RunInv st →
      RunInv (processCandidates classify uuid cands st) := by
  intro cands
  induction cands with
  | nil =>
    intro st h
    simpa only [processCandidates] using h
  | cons cand rest ih =>
    intro st h
    simp only [processCandidates]
    split_ifs with hseen
    · exact ih st h
    · cases hdet : detectContradictionInPair classify uuid cand.claimA cand.claimB with
      | nullSkip =>
        apply ih
        exact ⟨h.1, fun q hq => List.mem_cons_of_mem _ (h.2 q hq)⟩
      | thrown => exact runInv_submit st cand hseen h _ _
      | nullConsistent =>
        apply ih
        exact runInv_submit st cand hseen h _ _
      | record c =>
        apply ih
        exact runInv_submit st cand hseen h _ _

theorem foldl_claimStep_inv (classify : Claim → Claim → Option ContradictionJudgment)
    (uuid : String) (allClaims : List Claim) (cwe : List ClaimWithEmbedding) (topK : Nat)
    (threshold : ℝ) :
    ∀ (claims : List Claim) (st : RunState), RunInv st →
      RunInv (claims.foldl (claimStep classify uuid allClaims cwe topK threshold) st) := by
  intro claims
  induction claims with
  | nil => exact fun st h => h
  | cons c rest ih =>
    intro st h
    rw [List.foldl_cons]
    exact ih _ (processCandidates_inv classify uuid _ st h)

/-- The whole-run dedup guarantee: the classifier-submission trace of
`findContradictions` never contains two entries with the same unordered
pair key. -/
theorem findContradictions_submitted_nodup
    (classify : Claim → Claim → Option ContradictionJudgment) (uuid : String)
    (claims : List Claim) (topK : Nat) (threshold : ℝ)
    (embeddings : Option (List (List ℝ))) :
    (((findContradictions classify uuid claims topK threshold embeddings).submitted).map
      (fun q => getPairKey q.1 q.2)).Nodup := by
  have h := foldl_claimStep_inv classify uuid claims
    (match embeddings with
      | some es => (claims.zip es).map (fun p => ⟨p.1, p.2⟩)
      | none => []) topK threshold claims ⟨[], 0, [], []⟩
    ⟨List.nodup_nil, by intro q hq; simp at hq⟩
  exact h.1

/-- `getPairKey` is order-independent. -/
theorem getPairKey_comm (a b : String) : getPairKey a b = getPairKey b a := by
  unfold getPairKey
  rcases lt_trichotomy a b with h | h | h
  · rw [if_pos h, if_neg (lt_asymm h)]
  · subst h
    rfl
  · rw [if_neg (lt_asymm h), if_pos h]

/-- Inversion of a successful record creation: the guards passed and the
external classifier returned a non-`CONSISTENT` judgment for exactly this
pair. -/
theorem detect_record_inversion (classify : Claim → Claim → Option ContradictionJudgment)
    (uuid : String) (a b : Claim) (c : Contradiction)
    (h : detectContradictionInPair classify uuid a b = PairOutcome.record c) :
    a.id ≠ b.id ∧ a.utteranceId ≠ b.utteranceId ∧ c.claimA = a ∧ c.claimB = b ∧
      ∃ j, classify a b = some j ∧ j.label ≠ Label.CONSISTENT := by
  unfold detectContradictionInPair at h
  by_cases h1 : a.id = b.id
  · rw [if_pos h1] at h
    exact absurd h (by simp)
  · rw [if_neg h1] at h
    by_cases h2 : a.utteranceId = b.utteranceId
    · rw [if_pos h2] at h
      exact absurd h (by simp)
    · rw [if_neg h2] at h
      cases hc : classify a b with
      | none =>
        simp only [hc] at h
        exact absurd h (by simp)
      | some j =>
        simp only [hc] at h
        by_cases h3 : j.label = Label.CONSISTENT
        · rw [if_pos h3] at h
          exact absurd h (by simp)
        · rw [if_neg h3] at h
          have hcc : c = ⟨uuid, a, b, labelToType j.label, j.explanation, j.confidence⟩ := by
            cases h
            rfl
          subst hcc
          exact ⟨h1, h2, rfl, rfl, j, rfl, h3⟩

/-- Every contradiction in the state was produced by a successful,
non-`CONSISTENT` classifier verdict on its own pair (so a pair whose
classification threw is never counted). -/
def ContrSound (classify : Claim → Claim → Option ContradictionJudgment)
    (st : RunState) : Prop :=
  ∀ c ∈ st.contradictions,
    ∃ j, classify c.claimA c.claimB = some j ∧ j.label ≠ Label.CONSISTENT

theorem processCandidates_sound (classify : Claim → Claim → Option ContradictionJudgment)
    (uuid : String) :
    ∀ (cands : List CandidatePair) (st : RunState), ContrSound classify st →
      ContrSound classify (processCandidates classify uuid cands st) := by
  intro cands
  induction cands with
  | nil =>
    intro st h
    simpa only [processCandidates] using h
  | cons cand rest ih =>
    intro st h
    simp only [processCandidates]
    split_ifs with hseen
    · exact ih st h
    · cases hdet : detectContradictionInPair classify uuid cand.claimA cand.claimB with
      | nullSkip => exact ih _ h
      | thrown => exact h
      | nullConsistent => exact ih _ h
      | record c =>
        apply ih
        intro c2 hc2
        rcases List.mem_append.mp hc2 with h' | h'
        · exact h c2 h'
        · rw [List.mem_singleton] at h'
          subst h'
          obtain ⟨_, _, hca, hcb, j, hj, hjc⟩ :=
            detect_record_inversion classify uuid cand.claimA cand.claimB c2 hdet
          exact ⟨j, by rw [hca, hcb]; exact hj, hjc⟩

theorem findContradictions_sound
    (classify : Claim → Claim → Option ContradictionJudgment) (uuid : String)
    (claims : List Claim) (topK : Nat) (threshold : ℝ)
    (embeddings : Option (List (List ℝ))) :
    ∀ c ∈ (findContradictions classify uuid claims topK threshold embeddings).contradictions,
      ∃ j, classify c.claimA c.claimB = some j ∧ j.label ≠ Label.CONSISTENT := by
  have hgen : ∀ (cl : List Claim) (st : RunState), ContrSound classify st →
      ContrSound classify (cl.foldl (claimStep classify uuid claims
        (match embeddings with
          | some es => (claims.zip es).map (fun p => ⟨p.1, p.2⟩)
          | none => []) topK threshold) st) := by
    intro cl
    induction cl with
    | nil => exact fun st h => h
    | cons c rest ih =>
      intro st h
      rw [List.foldl_cons]
      exact ih _ (processCandidates_sound classify uuid _ st h)
  exact hgen claims ⟨[], 0, [], []⟩ (by intro c hc; simp at hc)

/-- The observable effect of a classifier failure inside the candidate
loop: the pair is deduped and counted as analyzed and its classification
is attempted, but the remaining candidates of the current claim are
abandoned and no contradiction is recorded. -/
theorem processCandidates_failure (classify : Claim → Claim → Option ContradictionJudgment)
    (uuid : String) (cand : CandidatePair) (rest : List CandidatePair) (st : RunState)
    (hkey : getPairKey cand.claimA.id cand.claimB.id ∉ st.alreadyCompared)
    (hid : cand.claimA.id ≠ cand.claimB.id)
    (hutt : cand.claimA.utteranceId ≠ cand.claimB.utteranceId)
    (hfail : classify cand.claimA cand.claimB = none) :
    processCandidates classify uuid (cand :: rest) st =
      { st with
        alreadyCompared := getPairKey cand.claimA.id cand.claimB.id :: st.alreadyCompared
        pairsAnalyzed := st.pairsAnalyzed + 1
        submitted := st.submitted ++ [(cand.claimA.id, cand.claimB.id)] } := by
  have hdet : detectContradictionInPair classify uuid cand.claimA cand.claimB
      = PairOutcome.thrown := by
    unfold detectContradictionInPair
    rw [if_neg hid, if_neg hutt, hfail]
  simp only [processCandidates]
  rw [if_neg hkey]
  simp only [hdet]

/-! ## A concrete three-claim scenario

Three claims from three different utterances; `claimCA` shares entity
`x` with `claimCB` and entity `y` with `claimCC`, while `claimCB` and
`claimCC` share nothing.  The classifier oracle `classifyCE` throws
exactly on the pair `(a, b)` and finds every other pair consistent. -/

def claimCA : Claim :=
  ⟨"a", "u1", "doc", "text a", Polarity.affirm, Modality.certain, none, ["x", "y"], [], "cit a"⟩

def claimCB : Claim :=
  ⟨"b", "u2", "doc", "text b", Polarity.deny, Modality.certain, none, ["x"], [], "cit b"⟩

def claimCC : Claim :=
  ⟨"c", "u3", "doc", "text c", Polarity.affirm, Modality.certain, none, ["y"], [], "cit c"⟩

noncomputable def pairAB : CandidatePair := ⟨claimCA, claimCB, 0.8, Reason.entity⟩

noncomputable def pairAC : CandidatePair := ⟨claimCA, claimCC, 0.8, Reason.entity⟩

noncomputable def pairBA : CandidatePair := ⟨claimCB, claimCA, 0.8, Reason.entity⟩

noncomputable def pairCA : CandidatePair := ⟨claimCC, claimCA, 0.8, Reason.entity⟩

def classifyCE : Claim → Claim → Option ContradictionJudgment :=
  fun p q =>
    if p.id = "a" ∧ q.id = "b" then none
    else some ⟨Label.CONSISTENT, "compatible", 1⟩

theorem genStages_CA (threshold : ℝ) :
    genStages claimCA [claimCA, claimCB, claimCC] [] 8 threshold
      = ⟨[pairAB, pairAC], ["c", "b", "a"]⟩ := rfl

theorem genStages_CB (threshold : ℝ) :
    genStages claimCB [claimCA, claimCB, claimCC] [] 8 threshold
      = ⟨[pairBA], ["a", "b"]⟩ := rfl

theorem genStages_CC (threshold : ℝ) :
    genStages claimCC [claimCA, claimCB, claimCC] [] 8 threshold
      = ⟨[pairCA], ["a", "c"]⟩ := rfl

theorem genCand_CA (threshold : ℝ) :
    generateCandidates claimCA [claimCA, claimCB, claimCC] [] 8 threshold
      = [pairAB, pairAC] := by
  rw [generateCandidates, genStages_CA threshold]
  have h1 : List.insertionSort simGE [pairAB, pairAC] = [pairAB, pairAC] := by
    simp only [List.insertionSort, List.orderedInsert]
    rw [if_pos (show simGE pairAB pairAC from le_refl (0.8 : ℝ))]
  rw [h1]
  rfl

theorem genCand_CB (threshold : ℝ) :
    generateCandidates claimCB [claimCA, claimCB, claimCC] [] 8 threshold = [pairBA] := by
  rw [generateCandidates, genStages_CB threshold]
  rfl

theorem genCand_CC (threshold : ℝ) :
    generateCandidates claimCC [claimCA, claimCB, claimCC] [] 8 threshold = [pairCA] := by
  rw [generateCandidates, genStages_CC threshold]
  rfl

theorem lt_ab : ("a" : String) < "b" := by
  rw [String.lt_iff_toList_lt]
  decide

theorem lt_ac : ("a" : String) < "c" := by
  rw [String.lt_iff_toList_lt]
  decide

theorem key_ab : getPairKey "a" "b" = "a:b" := by
  rw [getPairKey, if_pos lt_ab]
  rfl

theorem key_ba : getPairKey "b" "a" = "a:b" := by
  rw [getPairKey, if_neg (lt_asymm lt_ab)]
  rfl

theorem key_ca : getPairKey "c" "a" = "a:c" := by
  rw [getPairKey, if_neg (lt_asymm lt_ac)]
  rfl

theorem findContradictions_CE (threshold : ℝ) :
    findContradictions classifyCE "u" [claimCA, claimCB, claimCC] 8 threshold none
      = ⟨[], 2, ["a:c", "a:b"], [("a", "b"), ("c", "a")]⟩ := by
  have s1 : claimStep classifyCE "u" [claimCA, claimCB, claimCC] [] 8 threshold
      ⟨[], 0, [], []⟩ claimCA = ⟨[], 1, ["a:b"], [("a", "b")]⟩ := by
    rw [claimStep, genCand_CA threshold]
    simp +decide [processCandidates, pairAB, pairAC, claimCA, claimCB, claimCC,
      key_ab, key_ca, detectContradictionInPair, classifyCE]
  have s2 : claimStep classifyCE "u" [claimCA, claimCB, claimCC] [] 8 threshold
      ⟨[], 1, ["a:b"], [("a", "b")]⟩ claimCB = ⟨[], 1, ["a:b"], [("a", "b")]⟩ := by
    rw [claimStep, genCand_CB threshold]
    simp +decide [processCandidates, pairBA, claimCA, claimCB, key_ba]
  have s3 : claimStep classifyCE "u" [claimCA, claimCB, claimCC] [] 8 threshold
      ⟨[], 1, ["a:b"], [("a", "b")]⟩ claimCC
      = ⟨[], 2, ["a:c", "a:b"], [("a", "b"), ("c", "a")]⟩ := by
    rw [claimStep, genCand_CC threshold]
    simp +decide [processCandidates, pairCA, claimCA, claimCC,
      key_ca, detectContradictionInPair, classifyCE]
  show List.foldl (claimStep classifyCE "u" [claimCA, claimCB, claimCC] [] 8 threshold)
      ⟨[], 0, [], []⟩ [claimCA, claimCB, claimCC] = _
  rw [List.foldl_cons, s1, List.foldl_cons, s2, List.foldl_cons, s3, List.foldl_nil]

/-- A second claim from the same utterance as `claimCA`, used to witness
the same-utterance guard. -/
def claimCA2 : Claim :=
  ⟨"a2", "u1", "doc", "text a2", Polarity.deny, Modality.certain, none, [], [], "cit a2"⟩

/-! ## The claims -/

/-- A line opens a QUESTION: the `Q`/`QUESTION` opener of lines 510/512
matches it. -/
def opensQ (s : String) : Bool :=
  ((qaOpen 'q' s.toList).orElse (fun _ => wordOpen "question".toList s.toList)).isSome

/-- A line opens an ANSWER: the `A`/`ANSWER` opener of lines 511/513
matches it. -/
def opensA (s : String) : Bool :=
  ((qaOpen 'a' s.toList).orElse (fun _ => wordOpen "answer".toList s.toList)).isSome

/-- A line matches the speaker-header pattern of line 516. -/
def opensSpeaker (s : String) : Bool := (speakerMark s.toList).isSome

/-- A line recognised by the loop as a question or answer opener. -/
def isMarkerLine (s : String) : Bool := opensQ s || opensA s

/-- A line recognised by the loop as a pure continuation line: it opens
neither role and is no speaker header. -/
def isPlainLine (s : String) : Bool := !opensQ s && !opensA s && !opensSpeaker s

/-- The role a marker line opens (question openers are tried first). -/
def markerRole (s : String) : Role :=
  if opensQ s then Role.QUESTION else Role.ANSWER

/-- The trimmed text buffered for a marker line by the loop. -/
def markerText (s : String) : String :=
  match (qaOpen 'q' s.toList).orElse (fun _ => wordOpen "question".toList s.toList) with
  | some r => trimWs (String.mk r)
  | none =>
    match (qaOpen 'a' s.toList).orElse (fun _ => wordOpen "answer".toList s.toList) with
    | some r => trimWs (String.mk r)
    | none => ""

/-- A string containing at least one non-whitespace character. -/
def hasInk (s : String) : Bool := s.toList.any (fun c => !isWs c)

/-- A deposition-style Q/A marker line in the strict sense of the spec:
role letter, `.` or `:`, whitespace, then non-blank content. -/
def wellFormedQAMarkerLine (s : String) : Bool :=
  match s.toList with
  | c :: p :: w :: rest =>
    (c.toLower = 'q' ∨ c.toLower = 'a') && (p = '.' ∨ p = ':') && isWs w &&
      trimWs (String.mk rest) ≠ ""
  | _ => false

/-- The roles emitted by a flush of the given accumulator state. -/
def flushRoles (st : UttState) : List Role :=
  match st.role with
  | some r => if st.lines ≠ [] then [r] else []
  | none => []

theorem dropWhile_ink {l : List Char} (h : ∃ c ∈ l, isWs c = false) :
    ∃ c ∈ l.dropWhile isWs, isWs c = false := by
  induction l with
  | nil => simp at h
  | cons a t ih =>
    by_cases ha : isWs a = true
    · rw [List.dropWhile_cons_of_pos ha]
      rcases h with ⟨c, hc, hcw⟩
      rcases List.mem_cons.mp hc with rfl | hct
      · exact absurd ha (by rw [hcw]; exact Bool.false_ne_true)
      · exact ih ⟨c, hct, hcw⟩
    · rw [List.dropWhile_cons_of_neg ha]
      exact ⟨a, List.mem_cons_self a t, Bool.not_eq_true _ ▸ ha⟩

theorem reverse_ink {l : List Char} (h : ∃ c ∈ l, isWs c = false) :
    ∃ c ∈ l.reverse, isWs c = false := by
  rcases h with ⟨c, hc, hw⟩
  exact ⟨c, List.mem_reverse.mpr hc, hw⟩

theorem trimChars_ink {l : List Char} (h : ∃ c ∈ l, isWs c = false) :
    ∃ c ∈ trimChars l, isWs c = false :=
  reverse_ink (dropWhile_ink (reverse_ink (dropWhile_ink h)))

theorem mk_ne_empty_of_ne_nil {l : List Char} (h : l ≠ []) : String.mk l ≠ "" := by
  intro he
  exact h (congrArg String.data he)

theorem hasInk_iff {s : String} :
    hasInk s = true ↔ ∃ c ∈ s.toList, isWs c = false := by
  rw [hasInk, List.any_eq_true]
  constructor
  · rintro ⟨c, hc, hw⟩
    exact ⟨c, hc, Bool.not_eq_true' .. ▸ hw⟩
  · rintro ⟨c, hc, hw⟩
    exact ⟨c, hc, by rw [hw]; rfl⟩

theorem trimWs_ne_empty {s : String} (h : hasInk s = true) : trimWs s ≠ "" := by
  rcases trimChars_ink (hasInk_iff.mp h) with ⟨c, hc, _⟩
  exact mk_ne_empty_of_ne_nil (fun hnil => by rw [hnil] at hc; exact absurd hc (List.not_mem_nil c))

theorem dropWhile_head_neg_ws {m : List Char} {c : Char} {t : List Char}
    (h : m.dropWhile isWs = c :: t) : isWs c = false := by
  induction m with
  | nil => simp [List.dropWhile] at h
  | cons a s ih =>
    by_cases ha : isWs a = true
    · rw [List.dropWhile_cons_of_pos ha] at h; exact ih h
    · rw [List.dropWhile_cons_of_neg ha] at h
      cases h
      exact Bool.not_eq_true _ ▸ ha

theorem hasInk_trimWs {s : String} (h : trimWs s ≠ "") : hasInk (trimWs s) = true := by
  apply hasInk_iff.mpr
  rw [trimWs, trimChars] at h ⊢
  cases hd : ((s.toList.dropWhile isWs).reverse.dropWhile isWs) with
  | nil => exact absurd (congrArg (fun x => String.mk (List.reverse x)) hd) h
  | cons c t =>
    refine ⟨c, ?_, dropWhile_head_neg_ws hd⟩
    show c ∈ (c :: t).reverse
    exact List.mem_reverse.mpr (List.mem_cons_self c t)

theorem hasInk_append_left (a b : String) (h : hasInk a = true) :
    hasInk (a ++ b) = true := by
  rw [hasInk] at h ⊢
  have hd : (a ++ b).toList = a.toList ++ b.toList := rfl
  rw [hd, List.any_append, h, Bool.true_or]

theorem joinSep_ink (x : String) (xs : List String) (h : hasInk x = true) :
    hasInk (joinSep " " (x :: xs)) = true := by
  cases xs with
  | nil => simpa [joinSep] using h
  | cons y ys =>
    show hasInk (x ++ " " ++ joinSep " " (y :: ys)) = true
    exact hasInk_append_left _ _ (hasInk_append_left _ _ h)

theorem createUtterance_text_ne (uuid documentId : String) (role : Role)
    (f : ParsedLine) (rest : List ParsedLine) (hink : hasInk f.text = true) :
    (createUtterance uuid documentId role (f :: rest)).text ≠ "" := by
  have hlen : f.text.length > 0 := by
    rcases hasInk_iff.mp hink with ⟨c, hc, _⟩
    have hne : f.text.toList ≠ [] :=
      fun hnil => by rw [hnil] at hc; exact absurd hc (List.not_mem_nil c)
    show 0 < f.text.toList.length
    exact List.length_pos.mpr hne
  have hshape : (createUtterance uuid documentId role (f :: rest)).text
      = trimWs (joinSep " "
          (((f :: rest).map (fun l => l.text)).filter (fun t => t.length > 0))) := rfl
  rw [hshape, List.map_cons, List.filter_cons_of_pos (by simpa using hlen)]
  exact trimWs_ne_empty (joinSep_ink _ _ hink)

theorem flushUtt_text_ne (uuid documentId : String) (st : UttState)
    (hinv : ∀ r, st.role = some r →
      ∃ f rest, st.lines = f :: rest ∧ hasInk f.text = true) :
    ∀ u ∈ flushUtt uuid documentId st, u.text ≠ "" := by
  intro u hu
  cases hr : st.role with
  | none =>
    simp only [flushUtt, hr] at hu
    exact absurd hu (List.not_mem_nil u)
  | some r =>
    rcases hinv r hr with ⟨f, rest, hl, hink⟩
    simp only [flushUtt, hr, hl] at hu
    rw [if_pos (by simp)] at hu
    rcases List.mem_singleton.mp hu with rfl
    exact createUtterance_text_ne uuid documentId r f rest hink

theorem flushUtt_map_role (uuid documentId : String) (st : UttState) :
    (flushUtt uuid documentId st).map (fun u => u.role) = flushRoles st := by
  cases hr : st.role with
  | none => simp only [flushUtt, flushRoles, hr, List.map_nil]
  | some r =>
    simp only [flushUtt, flushRoles, hr]
    by_cases hl : st.lines = []
    · rw [if_neg (by simp [hl]), if_neg (by simp [hl])]
      rfl
    · rw [if_pos hl, if_pos hl]
      rfl

theorem extractLoop_roles (uuid documentId : String) :
    ∀ (lines : List ParsedLine) (st : UttState),
      (∀ l ∈ lines, isMarkerLine l.text = true ∨ isPlainLine l.text = true) →
      (st.role.isSome = true → st.lines ≠ []) →
      (extractLoop uuid documentId lines st).map (fun u => u.role)
        = flushRoles st
          ++ (lines.filter (fun l => isMarkerLine l.text)).map (fun l => markerRole l.text)
  | [], st, _, _ => by
    rw [extractLoop, List.filter_nil, List.map_nil, List.append_nil]
    exact flushUtt_map_role uuid documentId st
  | line :: rest, st, hclass, hinv => by
    have hcr : ∀ l ∈ rest, isMarkerLine l.text = true ∨ isPlainLine l.text = true :=
      fun l hl => hclass l (List.mem_cons_of_mem line hl)
    cases hq : (qaOpen 'q' line.text.toList).orElse
        (fun _ => wordOpen "question".toList line.text.toList) with
    | some remainder =>
      have hoq : opensQ line.text = true := by rw [opensQ, hq]; rfl
      have hm : isMarkerLine line.text = true := by rw [isMarkerLine, hoq, Bool.true_or]
      have hstep : extractLoop uuid documentId (line :: rest) st
          = flushUtt uuid documentId st
            ++ extractLoop uuid documentId rest
              ⟨some Role.QUESTION, [{ line with text := trimWs (String.mk remainder) }],
                line.lineNumber⟩ := by
        simp only [extractLoop, hq]
      rw [hstep, List.map_append, flushUtt_map_role,
        extractLoop_roles uuid documentId rest _ hcr (fun _ => by simp),
        List.filter_cons_of_pos (by simpa using hm), List.map_cons]
      have hfr : flushRoles ⟨some Role.QUESTION,
          [{ line with text := trimWs (String.mk remainder) }], line.lineNumber⟩
          = [Role.QUESTION] := by
        rw [flushRoles]
        exact if_pos (by simp)
      rw [hfr, markerRole, if_pos hoq]
      rfl
    | none =>
      have hoq : opensQ line.text = false := by rw [opensQ, hq]; rfl
      cases ha : (qaOpen 'a' line.text.toList).orElse
          (fun _ => wordOpen "answer".toList line.text.toList) with
      | some remainder =>
        have hoa : opensA line.text = true := by rw [opensA, ha]; rfl
        have hm : isMarkerLine line.text = true := by
          rw [isMarkerLine, hoq, hoa]
          rfl
        have hstep : extractLoop uuid documentId (line :: rest) st
            = flushUtt uuid documentId st
              ++ extractLoop uuid documentId rest
                ⟨some Role.ANSWER, [{ line with text := trimWs (String.mk remainder) }],
                  line.lineNumber⟩ := by
          simp only [extractLoop, hq, ha]
        rw [hstep, List.map_append, flushUtt_map_role,
          extractLoop_roles uuid documentId rest _ hcr (fun _ => by simp),
          List.filter_cons_of_pos (by simpa using hm), List.map_cons]
        have hfr : flushRoles ⟨some Role.ANSWER,
            [{ line with text := trimWs (String.mk remainder) }], line.lineNumber⟩
            = [Role.ANSWER] := by
          rw [flushRoles]
          exact if_pos (by simp)
        rw [hfr, markerRole, if_neg (by rw [hoq]; exact Bool.false_ne_true)]
        rfl
      | none =>
        have hoa : opensA line.text = false := by rw [opensA, ha]; rfl
        have hm : isMarkerLine line.text = false := by
          rw [isMarkerLine, hoq, hoa]
          rfl
        have hplain : isPlainLine line.text = true := by
          rcases hclass line (List.mem_cons_self line rest) with h | h
          · rw [hm] at h; exact absurd h Bool.false_ne_true
          · exact h
        have hsp : speakerMark line.text.toList = none := by
          rw [isPlainLine, hoq, hoa] at hplain
          simp only [Bool.not_false, Bool.true_and] at hplain
          rw [opensSpeaker] at hplain
          cases hs : speakerMark line.text.toList with
          | none => rfl
          | some v => rw [hs] at hplain; exact absurd hplain (by simp)
        have hstep : extractLoop uuid documentId (line :: rest) st
            = if st.role.isSome then
                if isHeaderLine line.text then extractLoop uuid documentId rest st
                else extractLoop uuid documentId rest { st with lines := st.lines ++ [line] }
              else extractLoop uuid documentId rest st := by
          simp only [extractLoop, hq, ha, hsp]
        rw [hstep, List.filter_cons_of_neg (by simpa using hm)]
        by_cases hrs : st.role.isSome = true
        · rw [if_pos hrs]
          by_cases hh : isHeaderLine line.text = true
          · rw [if_pos hh]
            exact extractLoop_roles uuid documentId rest st hcr hinv
          · rw [if_neg hh]
            have hinv2 : ({ st with lines := st.lines ++ [line] } : UttState).role.isSome = true
                → st.lines ++ [line] ≠ [] := fun _ => by simp
            have hfr : flushRoles { st with lines := st.lines ++ [line] } = flushRoles st := by
              cases hr : st.role with
              | none => simp only [flushRoles, hr]
              | some r =>
                simp only [flushRoles, hr]
                rw [if_pos (by simp), if_pos (hinv (by rw [hr]; rfl) )]
            rw [extractLoop_roles uuid documentId rest _ hcr hinv2, hfr]
        · rw [if_neg hrs]
          exact extractLoop_roles uuid documentId rest st hcr hinv

theorem extractLoop_text_ne (uuid documentId : String) :
    ∀ (lines : List ParsedLine) (st : UttState),
      (∀ l ∈ lines, isMarkerLine l.text = true ∨ isPlainLine l.text = true) →
      (∀ l ∈ lines, isMarkerLine l.text = true → markerText l.text ≠ "") →
      (∀ r, st.role = some r → ∃ f rest, st.lines = f :: rest ∧ hasInk f.text = true) →
      ∀ u ∈ extractLoop uuid documentId lines st, u.text ≠ ""
  | [], st, _, _, hinv => by
    rw [extractLoop]
    exact flushUtt_text_ne uuid documentId st hinv
  | line :: rest, st, hclass, hink, hinv => by
    have hcr : ∀ l ∈ rest, isMarkerLine l.text = true ∨ isPlainLine l.text = true :=
      fun l hl => hclass l (List.mem_cons_of_mem line hl)
    have hir : ∀ l ∈ rest, isMarkerLine l.text = true → markerText l.text ≠ "" :=
      fun l hl => hink l (List.mem_cons_of_mem line hl)
    intro u hu
    cases hq : (qaOpen 'q' line.text.toList).orElse
        (fun _ => wordOpen "question".toList line.text.toList) with
    | some remainder =>
      have hoq : opensQ line.text = true := by rw [opensQ, hq]; rfl
      have hm : isMarkerLine line.text = true := by rw [isMarkerLine, hoq, Bool.true_or]
      have hmt : markerText line.text = trimWs (String.mk remainder) := by
        simp only [markerText, hq]
      have hne : trimWs (String.mk remainder) ≠ "" := by
        rw [← hmt]
        exact hink line (List.mem_cons_self line rest) hm
      have hstep : extractLoop uuid documentId (line :: rest) st
          = flushUtt uuid documentId st
            ++ extractLoop uuid documentId rest
              ⟨some Role.QUESTION, [{ line with text := trimWs (String.mk remainder) }],
                line.lineNumber⟩ := by
        simp only [extractLoop, hq]
      rw [hstep] at hu
      rcases List.mem_append.mp hu with hu | hu
      · exact flushUtt_text_ne uuid documentId st hinv u hu
      · exact extractLoop_text_ne uuid documentId rest _ hcr hir
          (fun r hr => ⟨_, [], rfl, hasInk_trimWs hne⟩) u hu
    | none =>
      cases ha : (qaOpen 'a' line.text.toList).orElse
          (fun _ => wordOpen "answer".toList line.text.toList) with
      | some remainder =>
        have hoq : opensQ line.text = false := by rw [opensQ, hq]; rfl
        have hoa : opensA line.text = true := by rw [opensA, ha]; rfl
        have hm : isMarkerLine line.text = true := by
          rw [isMarkerLine, hoq, hoa]
          rfl
        have hmt : markerText line.text = trimWs (String.mk remainder) := by
          simp only [markerText, hq, ha]
        have hne : trimWs (String.mk remainder) ≠ "" := by
          rw [← hmt]
          exact hink line (List.mem_cons_self line rest) hm
        have hstep : extractLoop uuid documentId (line :: rest) st
            = flushUtt uuid documentId st
              ++ extractLoop uuid documentId rest
                ⟨some Role.ANSWER, [{ line with text := trimWs (String.mk remainder) }],
                  line.lineNumber⟩ := by
          simp only [extractLoop, hq, ha]
        rw [hstep] at hu
        rcases List.mem_append.mp hu with hu | hu
        · exact flushUtt_text_ne uuid documentId st hinv u hu
        · exact extractLoop_text_ne uuid documentId rest _ hcr hir
            (fun r hr => ⟨_, [], rfl, hasInk_trimWs hne⟩) u hu
      | none =>
        have hoq : opensQ line.text = false := by rw [opensQ, hq]; rfl
        have hoa : opensA line.text = false := by rw [opensA, ha]; rfl
        have hm : isMarkerLine line.text = false := by
          rw [isMarkerLine, hoq, hoa]
          rfl
        have hplain : isPlainLine line.text = true := by
          rcases hclass line (List.mem_cons_self line rest) with h | h
          · rw [hm] at h; exact absurd h Bool.false_ne_true
          · exact h
        have hsp : speakerMark line.text.toList = none := by
          rw [isPlainLine, hoq, hoa] at hplain
          simp only [Bool.not_false, Bool.true_and] at hplain
          rw [opensSpeaker] at hplain
          cases hs : speakerMark line.text.toList with
          | none => rfl
          | some v => rw [hs] at hplain; exact absurd hplain (by simp)
        have hstep : extractLoop uuid documentId (line :: rest) st
            = if st.role.isSome then
                if isHeaderLine line.text then extractLoop uuid documentId rest st
                else extractLoop uuid documentId rest { st with lines := st.lines ++ [line] }
              else extractLoop uuid documentId rest st := by
          simp only [extractLoop, hq, ha, hsp]
        rw [hstep] at hu
        by_cases hrs : st.role.isSome = true
        · rw [if_pos hrs] at hu
          by_cases hh : isHeaderLine line.text = true
          · rw [if_pos hh] at hu
            exact extractLoop_text_ne uuid documentId rest st hcr hir hinv u hu
          · rw [if_neg hh] at hu
            have hinv2 : ∀ r, ({ st with lines := st.lines ++ [line] } : UttState).role = some r
                → ∃ f frest, st.lines ++ [line] = f :: frest ∧ hasInk f.text = true := by
              intro r hr
              rcases hinv r hr with ⟨f, frest, hl, hik⟩
              exact ⟨f, frest ++ [line], by rw [hl]; rfl, hik⟩
            exact extractLoop_text_ne uuid documentId rest _ hcr hir hinv2 u hu
        · rw [if_neg hrs] at hu
          exact extractLoop_text_ne uuid documentId rest st hcr hir hinv u hu

/-- Witness transcript for the amended C5: a marker line, a true
continuation line (opening no role), and a second marker line. -/
def c5doc : Document := ⟨"d5w", "t5w", "Q. Were you there?\nIn court.\nA. No."⟩

/-- C1, counterexample.  The claim says a classifier failure is isolated
to the single failing pair, with the remaining candidate pairs of the
claim currently being processed still submitted for classification.  In
this concrete run, `claimCA` has the two candidate pairs
`[pairAB, pairAC]`, only the classification of `(a, b)` throws, and yet
the pair `("a", "c")` is never submitted during `claimCA`'s processing —
the trace records only `("a", "b")` and the later re-proposal
`("c", "a")` by `claimCC` — refuting the claim as stated. -/
theorem claim_C1_counterexample :
    generateCandidates claimCA [claimCA, claimCB, claimCC] [] 8 (7 / 10 : ℝ)
      = [pairAB, pairAC] ∧
    classifyCE claimCA claimCB = none ∧
    classifyCE claimCA claimCC ≠ none ∧
    classifyCE claimCC claimCA ≠ none ∧
    (findContradictions classifyCE "u" [claimCA, claimCB, claimCC] 8 (7 / 10 : ℝ)
      none).submitted = [("a", "b"), ("c", "a")] ∧
    ("a", "c") ∉ (findContradictions classifyCE "u" [claimCA, claimCB, claimCC] 8 (7 / 10 : ℝ)
      none).submitted ∧
    (findContradictions classifyCE "u" [claimCA, claimCB, claimCC] 8 (7 / 10 : ℝ)
      none).contradictions = [] := by
  refine ⟨genCand_CA _, rfl, ?_, ?_, ?_, ?_, ?_⟩
  · decide
  · decide
  · rw [findContradictions_CE]
  · rw [findContradictions_CE]
    decide
  · rw [findContradictions_CE]

/-- C1, amended.  A classifier failure is caught at the per-claim level:
the failing pair is deduped, counted as analyzed and submitted, no
contradiction is recorded for it, but the remaining candidate pairs of
the claim currently being processed are abandoned (the loop returns the
state reached so far); the run then continues with the next claim, and
in any run every recorded contradiction stems from a successful
non-`CONSISTENT` verdict, so a failed pair is counted neither as a
contradiction nor as consistent. -/
theorem claim_C1_amended
    (classify classify2 : Claim → Claim → Option ContradictionJudgment)
    (uuid uuid2 : String) (cand : CandidatePair) (rest : List CandidatePair) (st : RunState)
    (claims : List Claim) (topK : Nat) (threshold : ℝ) (embeddings : Option (List (List ℝ)))
    (hkey : getPairKey cand.claimA.id cand.claimB.id ∉ st.alreadyCompared)
    (hid : cand.claimA.id ≠ cand.claimB.id)
    (hutt : cand.claimA.utteranceId ≠ cand.claimB.utteranceId)
    (hfail : classify cand.claimA cand.claimB = none) :
    processCandidates classify uuid (cand :: rest) st =
      { st with
        alreadyCompared := getPairKey cand.claimA.id cand.claimB.id :: st.alreadyCompared
        pairsAnalyzed := st.pairsAnalyzed + 1
        submitted := st.submitted ++ [(cand.claimA.id, cand.claimB.id)] } ∧
    (∀ c ∈ (findContradictions classify2 uuid2 claims topK threshold embeddings).contradictions,
      ∃ j, classify2 c.claimA c.claimB = some j ∧ j.label ≠ Label.CONSISTENT) :=
  ⟨processCandidates_failure classify uuid cand rest st hkey hid hutt hfail,
    findContradictions_sound classify2 uuid2 claims topK threshold embeddings⟩

/-- Witness for the amended C1 at a concrete failing pair. -/
theorem claim_C1_amended_witness :
    (getPairKey pairAB.claimA.id pairAB.claimB.id
        ∉ (⟨[], 0, [], []⟩ : RunState).alreadyCompared) ∧
    pairAB.claimA.id ≠ pairAB.claimB.id ∧
    pairAB.claimA.utteranceId ≠ pairAB.claimB.utteranceId ∧
    classifyCE pairAB.claimA pairAB.claimB = none ∧
    (processCandidates classifyCE "u" (pairAB :: [pairAC]) ⟨[], 0, [], []⟩ =
      { (⟨[], 0, [], []⟩ : RunState) with
        alreadyCompared := getPairKey pairAB.claimA.id pairAB.claimB.id
          :: (⟨[], 0, [], []⟩ : RunState).alreadyCompared
        pairsAnalyzed := (⟨[], 0, [], []⟩ : RunState).pairsAnalyzed + 1
        submitted := (⟨[], 0, [], []⟩ : RunState).submitted
          ++ [(pairAB.claimA.id, pairAB.claimB.id)] } ∧
      (∀ c ∈ (findContradictions classifyCE "u" [] 8 (7 / 10 : ℝ) none).contradictions,
        ∃ j, classifyCE c.claimA c.claimB = some j ∧ j.label ≠ Label.CONSISTENT)) :=
  ⟨List.not_mem_nil _, by decide, by decide, rfl,
    claim_C1_amended classifyCE classifyCE "u" "u" pairAB [pairAC] ⟨[], 0, [], []⟩ [] 8
      (7 / 10 : ℝ) none (List.not_mem_nil _) (by decide) (by decide) rfl⟩

/-- C2: in any single run of `findContradictions`, each unordered pair of
claim ids is submitted to the external classifier at most once (the trace
of submitted pairs has pairwise-distinct order-independent keys), and the
pair key is order-independent: `getPairKey a b = getPairKey b a`. -/
theorem claim_C2 (a b : String) (classify : Claim → Claim → Option ContradictionJudgment)
    (uuid : String) (claims : List Claim) (topK : Nat) (threshold : ℝ)
    (embeddings : Option (List (List ℝ))) :
    getPairKey a b = getPairKey b a ∧
    (((findContradictions classify uuid claims topK threshold embeddings).submitted).map
      (fun q => getPairKey q.1 q.2)).Nodup :=
  ⟨getPairKey_comm a b,
    findContradictions_submitted_nodup classify uuid claims topK threshold embeddings⟩

/-- C3: `generateCandidates` never returns a pair whose claims share an
utterance id or have equal ids (given that every embedding-index entry is
drawn from the claim list, as `findContradictions` constructs it), and
`detectContradictionInPair` on such a pair returns its defensive `null`
without invoking the external classifier (the outcome is `nullSkip` for
every classifier oracle). -/
theorem claim_C3 (classify : Claim → Claim → Option ContradictionJudgment) (uuid : String)
    (claim : Claim) (allClaims : List Claim) (cwe : List ClaimWithEmbedding)
    (topK : Nat) (threshold : ℝ) (a b : Claim)
    (hsub : ∀ ce ∈ cwe, ce.claim ∈ allClaims)
    (hab : a.id = b.id ∨ a.utteranceId = b.utteranceId) :
    (∀ p ∈ generateCandidates claim allClaims cwe topK threshold,
      p.claimA.utteranceId ≠ p.claimB.utteranceId ∧ p.claimA.id ≠ p.claimB.id) ∧
    detectContradictionInPair classify uuid a b = PairOutcome.nullSkip := by
  constructor
  · intro p hp
    obtain ⟨ha, hid, hsu, hdisj⟩ := generateCandidates_mem claim allClaims cwe topK threshold p hp
    have hBmem : p.claimB ∈ allClaims := by
      rcases hdisj with ⟨_, ce, hce, hbe⟩ | ⟨_, _, hb, _⟩ | ⟨_, _, hb, _, _⟩ | ⟨_, _, hb, _, _⟩
      · exact hbe ▸ hsub ce hce
      · exact hb
      · exact hb
      · exact hb
    constructor
    · rw [ha]
      intro hu
      exact hsu (mem_sameUtteranceIdsOf claim p.claimB allClaims hBmem hu.symm)
    · rw [ha]
      exact fun he => hid he.symm
  · rcases hab with h | h
    · rw [detectContradictionInPair, if_pos h]
    · by_cases hid : a.id = b.id
      · rw [detectContradictionInPair, if_pos hid]
      · rw [detectContradictionInPair, if_neg hid, if_pos h]

/-- Witness for C3 at a same-utterance pair and the trivial embedding
index. -/
theorem claim_C3_witness :
    (∀ ce ∈ ([] : List ClaimWithEmbedding), ce.claim ∈ [claimCA]) ∧
    (claimCA.id = claimCA2.id ∨ claimCA.utteranceId = claimCA2.utteranceId) ∧
    ((∀ p ∈ generateCandidates claimCA [claimCA] [] 8 (7 / 10 : ℝ),
      p.claimA.utteranceId ≠ p.claimB.utteranceId ∧ p.claimA.id ≠ p.claimB.id) ∧
    detectContradictionInPair classifyCE "u" claimCA claimCA2 = PairOutcome.nullSkip) :=
  ⟨by simp, Or.inr rfl,
    claim_C3 classifyCE "u" claimCA [claimCA] [] 8 (7 / 10 : ℝ) claimCA claimCA2
      (by simp) (Or.inr rfl)⟩

/-- C6: `generateCandidates` returns at most `topK` pairs, sorted by
similarity in descending order; each eligible claim is the partner of at
most one returned pair (partner ids are pairwise distinct, so a later
signal never re-adds an earlier signal's candidate); every pair has the
query claim as `claimA`; and each pair carries the similarity of the
signal that proposed it first — `0.8` for an entity pair, `0.7` for a
topic pair whose partner shares no entity with the query (the earlier
entity signal did not propose it), `0.75` for a temporal pair whose
partner shares neither entity nor topic. -/
theorem claim_C6 (claim : Claim) (allClaims : List Claim) (cwe : List ClaimWithEmbedding)
    (topK : Nat) (threshold : ℝ) :
    (generateCandidates claim allClaims cwe topK threshold).length ≤ topK ∧
    List.Sorted simGE (generateCandidates claim allClaims cwe topK threshold) ∧
    ((generateCandidates claim allClaims cwe topK threshold).map
      (fun p => p.claimB.id)).Nodup ∧
    (∀ p ∈ generateCandidates claim allClaims cwe topK threshold,
      p.claimA = claim ∧
      (p.reason = Reason.entity → p.similarity = 0.8 ∧ sharedEntities claim p.claimB ≠ []) ∧
      (p.reason = Reason.topic → p.similarity = 0.7 ∧ sharedTopics claim p.claimB ≠ [] ∧
        sharedEntities claim p.claimB = []) ∧
      (p.reason = Reason.temporal → p.similarity = 0.75 ∧
        sharedEntities claim p.claimB = [] ∧ sharedTopics claim p.claimB = [])) := by
  refine ⟨generateCandidates_length claim allClaims cwe topK threshold,
    generateCandidates_sorted claim allClaims cwe topK threshold,
    generateCandidates_nodup claim allClaims cwe topK threshold, ?_⟩
  intro p hp
  obtain ⟨ha, _, _, hdisj⟩ := generateCandidates_mem claim allClaims cwe topK threshold p hp
  refine ⟨ha, ?_, ?_, ?_⟩
  · intro hr
    rcases hdisj with ⟨h1, _⟩ | ⟨_, h2, _, h4⟩ | ⟨h1, _⟩ | ⟨h1, _⟩
    · exact absurd (hr.symm.trans h1) (by decide)
    · exact ⟨h2, h4⟩
    · exact absurd (hr.symm.trans h1) (by decide)
    · exact absurd (hr.symm.trans h1) (by decide)
  · intro hr
    rcases hdisj with ⟨h1, _⟩ | ⟨h1, _⟩ | ⟨_, h2, _, h4, h5⟩ | ⟨h1, _⟩
    · exact absurd (hr.symm.trans h1) (by decide)
    · exact absurd (hr.symm.trans h1) (by decide)
    · exact ⟨h2, h4, h5⟩
    · exact absurd (hr.symm.trans h1) (by decide)
  · intro hr
    rcases hdisj with ⟨h1, _⟩ | ⟨h1, _⟩ | ⟨h1, _⟩ | ⟨_, h2, _, h4, h5⟩
    · exact absurd (hr.symm.trans h1) (by decide)
    · exact absurd (hr.symm.trans h1) (by decide)
    · exact absurd (hr.symm.trans h1) (by decide)
    · exact ⟨h2, h4, h5⟩

/-- C8: the cosine similarity of any non-zero vector with itself is
exactly `1`, and cosine similarity is symmetric on equal-length
vectors. -/
theorem claim_C8 (v a b : List ℝ) (hv : ∃ x ∈ v, x ≠ 0) (hab : a.length = b.length) :
    cosineSimilarity v v = Except.ok 1 ∧ cosineSimilarity a b = cosineSimilarity b a :=
  ⟨cosineSimilarity_self v hv, cosineSimilarity_comm a b hab⟩

/-- Witness for C8 at `v = [1]`, `a = [0, 2]`, `b = [3, 4]`. -/
theorem claim_C8_witness :
    (∃ x ∈ ([1] : List ℝ), x ≠ 0) ∧
    ([0, 2] : List ℝ).length = ([3, 4] : List ℝ).length ∧
    (cosineSimilarity [1] [1] = Except.ok 1 ∧
      cosineSimilarity [0, 2] [3, 4] = cosineSimilarity [3, 4] [0, 2]) :=
  ⟨⟨1, by simp, one_ne_zero⟩, rfl,
    claim_C8 [1] [0, 2] [3, 4] ⟨1, by simp, one_ne_zero⟩ rfl⟩

/-- C10: `cosineSimilarity` throws exactly when the two vectors have
different lengths, and on equal-length vectors it returns exactly `0`
(not `1`, not an error) whenever either argument has zero norm. -/
theorem claim_C10 (a b c d : List ℝ) (hcd : c.length = d.length)
    (h0 : Real.sqrt (sumProd c c) = 0 ∨ Real.sqrt (sumProd d d) = 0) :
    ((∃ e, cosineSimilarity a b = Except.error e) ↔ a.length ≠ b.length) ∧
    cosineSimilarity c d = Except.ok 0 :=
  ⟨cosineSimilarity_error_iff a b, cosineSimilarity_zero_norm c d hcd h0⟩

/-- Witness for C10 at the zero vector: `cosineSimilarity [0,0] [0,0] = 0`. -/
theorem claim_C10_witness :
    (([0, 0] : List ℝ).length = ([0, 0] : List ℝ).length) ∧
    (Real.sqrt (sumProd ([0, 0] : List ℝ) [0, 0]) = 0 ∨
      Real.sqrt (sumProd ([0, 0] : List ℝ) [0, 0]) = 0) ∧
    (((∃ e, cosineSimilarity ([1] : List ℝ) [1, 2] = Except.error e) ↔
        ([1] : List ℝ).length ≠ ([1, 2] : List ℝ).length) ∧
      cosineSimilarity ([0, 0] : List ℝ) [0, 0] = Except.ok 0) := by
  have hz : Real.sqrt (sumProd ([0, 0] : List ℝ) [0, 0]) = 0 := by
    have h1 : sumProd ([0, 0] : List ℝ) [0, 0] = 0 := by simp [sumProd]
    rw [h1, Real.sqrt_zero]
  exact ⟨rfl, Or.inl hz, claim_C10 [1] [1, 2] [0, 0] [0, 0] rfl (Or.inl hz)⟩

/-- C7, counterexample: the claim quantifies over all anchors with
`lineStart ≤ lineEnd`, but when `lineStart = lineEnd` the citation is
formatted as `Page 12, Line 5` and parses back without a `lineEnd`, so
the parsed anchor differs from the original. -/
theorem claim_C7_counterexample :
    parseCitation (formatCitation ⟨12, some 5, some 5, none, none⟩)
      ≠ some ⟨12, some 5, some 5, none, none⟩ := by
  decide

/-- C7, amended: for anchors with `lineStart < lineEnd` (in particular
`{page 12, lines 5-8}`), formatting and re-parsing restores page,
`lineStart` and `lineEnd` exactly; when `lineStart = lineEnd` the
round-trip restores page and `lineStart` but leaves `lineEnd` unset
(the same single-line range, with the end implicit). -/
theorem claim_C7_amended (p ls le : Nat) (cs ce : Option Nat) (h : ls < le) :
    parseCitation (formatCitation ⟨p, some ls, some le, cs, ce⟩)
      = some ⟨p, some ls, some le, none, none⟩ ∧
    parseCitation (formatCitation ⟨p, some ls, some ls, cs, ce⟩)
      = some ⟨p, some ls, none, none, none⟩ :=
  ⟨parse_format_range p ls le cs ce h, parse_format_single p ls cs ce⟩

/-- Witness for the amended C7 at the spec instance `{12, 5, 8}`. -/
theorem claim_C7_witness :
    5 < 8 ∧
    (parseCitation (formatCitation ⟨12, some 5, some 8, none, none⟩)
        = some ⟨12, some 5, some 8, none, none⟩ ∧
      parseCitation (formatCitation ⟨12, some 5, some 5, none, none⟩)
        = some ⟨12, some 5, none, none, none⟩) :=
  ⟨by decide, claim_C7_amended 12 5 8 none none (by decide)⟩

/-- C9: when segmentation yields zero ANSWER utterances, the pipeline
fails with the fatal user-visible "No Q&A pairs found" error and produces
no `Report`, for every behavior of the external collaborators. -/
theorem claim_C9 (extract : Utterance → Option (List ClaimExtraction))
    (embedBatch : List String → Option (List (List ℝ)))
    (classify : Claim → Claim → Option ContradictionJudgment)
    (genReport : Document → List Claim → List Contradiction → Report)
    (uuid : String) (document : Document)
    (h : (extractUtterances uuid document).filter (fun u => u.role = Role.ANSWER) = []) :
    runPipeline extract embedBatch classify genReport uuid document
      = Except.error "No Q&A pairs found in document. Please ensure the transcript uses \"Q.\" and \"A.\" format for questions and answers." := by
  simp only [runPipeline, h, List.length_nil, if_pos]

/-- Vacuous external extractor used to instantiate oracles in
witnesses. -/
def extractNone : Utterance → Option (List ClaimExtraction) := fun _ => none

def embedNone : List String → Option (List (List ℝ)) := fun _ => none

def genReportTrivial : Document → List Claim → List Contradiction → Report :=
  fun d _ _ => ⟨d.id, d.title, "", ⟨0, 0, 0, 0⟩⟩

/-- Witness for C9 at a transcript containing only QUESTION markers. -/
theorem claim_C9_witness :
    ((extractUtterances "u" ⟨"d9", "t9", "Q. One?\nQ. Two?"⟩).filter
      (fun u => u.role = Role.ANSWER) = []) ∧
    runPipeline extractNone embedNone classifyCE genReportTrivial "u" ⟨"d9", "t9", "Q. One?\nQ. Two?"⟩
      = Except.error "No Q&A pairs found in document. Please ensure the transcript uses \"Q.\" and \"A.\" format for questions and answers." :=
  ⟨by decide,
    claim_C9 extractNone embedNone classifyCE genReportTrivial "u" ⟨"d9", "t9", "Q. One?\nQ. Two?"⟩
      (by decide)⟩

/-- The §8 scenario transcript: a `Page 1` marker followed by four
numbered `Q.`/`A.` lines. -/
def scenarioDocument : Document :=
  ⟨"doc4", "scenario",
    "Page 1\n1 Q. Were you present?\n2 A. Yes, I was there the whole time.\n1 Q. Were you present at 3pm?\n2 A. No, I was not there at that time."⟩

/-- C4, evaluation at the failing input.  The claim expects 2 ANSWER
utterances and a report with `hardContradictions = 1`; the code instead
yields ZERO utterances — `parseIntoLines` strips the `Q.`/`A.` marker
together with the leading line number (the matched text of
`/^\s*(\d+)\.?\s+(Q\.|A\.|Q:|A:)/i` includes the marker), so
`extractUtterances` never sees an opener — and the pipeline aborts with
the fatal "No Q&A pairs found" error, producing no report at all. -/
theorem claim_C4 (uuid : String) (extract : Utterance → Option (List ClaimExtraction))
    (embedBatch : List String → Option (List (List ℝ)))
    (classify : Claim → Claim → Option ContradictionJudgment)
    (genReport : Document → List Claim → List Contradiction → Report) :
    extractUtterances uuid scenarioDocument = [] ∧
    runPipeline extract embedBatch classify genReport uuid scenarioDocument
      = Except.error "No Q&A pairs found in document. Please ensure the transcript uses \"Q.\" and \"A.\" format for questions and answers." := by
  have h : extractUtterances uuid scenarioDocument = [] := rfl
  have h2 : (extractUtterances uuid scenarioDocument).filter
      (fun u => u.role = Role.ANSWER) = [] := by
    rw [h]
    rfl
  refine ⟨h, ?_⟩
  simp only [runPipeline, h2, List.length_nil, if_pos]

/-- C5, counterexample.  The transcript `Q. Were you there? /
Absolutely not. / A. No.` has exactly 2 well-formed `Q.`/`A.` marker
lines, but `extractUtterances` emits 3 utterances: the continuation line
`Absolutely not.` begins with the letter `A`, which the opener pattern
`/^A[.:]?\s*/i` matches, so it spuriously starts a new ANSWER utterance
whose text is the mangled remainder `bsolutely not.`. -/
theorem claim_C5_counterexample :
    ((splitNl "Q. Were you there?\nAbsolutely not.\nA. No.").countP
      (fun s => wellFormedQAMarkerLine s) = 2) ∧
    (extractUtterances "u" ⟨"d5", "t5", "Q. Were you there?\nAbsolutely not.\nA. No."⟩).map
        (fun u => (u.role, u.text))
      = [(Role.QUESTION, "Were you there?"), (Role.ANSWER, "bsolutely not."),
          (Role.ANSWER, "No.")] := by
  decide

/-- C5, amended.  The count/order/non-emptiness guarantee holds for
transcripts whose parsed lines are each either an opener line (one the
loop recognises as a `Q`/`QUESTION` or `A`/`ANSWER` opener — NOT merely a
well-formed `Q.`/`A.` marker, since any line whose first letter is `q` or
`a` counts as an opener) or a pure continuation line (opening no role and
matching no speaker header), with each opener carrying non-blank text
after the marker: then `extractUtterances` emits exactly one utterance
per opener line, with roles in marker order (QUESTION for question
openers, ANSWER for the rest), and every emitted utterance has non-empty
text. -/
theorem claim_C5_amended (uuid : String) (document : Document)
    (hclass : ∀ l ∈ parseIntoLines document.rawText,
      isMarkerLine l.text = true ∨ isPlainLine l.text = true)
    (hink : ∀ l ∈ parseIntoLines document.rawText,
      isMarkerLine l.text = true → markerText l.text ≠ "") :
    ((extractUtterances uuid document).map (fun u => u.role)
      = ((parseIntoLines document.rawText).filter (fun l => isMarkerLine l.text)).map
          (fun l => markerRole l.text)) ∧
    ((extractUtterances uuid document).length
      = ((parseIntoLines document.rawText).filter (fun l => isMarkerLine l.text)).length) ∧
    (∀ u ∈ extractUtterances uuid document, u.text ≠ "") := by
  have h1 : (extractUtterances uuid document).map (fun u => u.role)
      = ((parseIntoLines document.rawText).filter (fun l => isMarkerLine l.text)).map
          (fun l => markerRole l.text) := by
    have h0 := extractLoop_roles uuid document.id (parseIntoLines document.rawText)
      ⟨none, [], none⟩ hclass (fun h => by simp at h)
    rw [extractUtterances, h0]
    rfl
  refine ⟨h1, ?_, ?_⟩
  · have h2 := congrArg List.length h1
    rwa [List.length_map, List.length_map] at h2
  · intro u hu
    exact extractLoop_text_ne uuid document.id (parseIntoLines document.rawText)
      ⟨none, [], none⟩ hclass hink (fun r hr => Option.noConfusion hr) u hu

/-- Witness for the amended C5 at a three-line transcript with two
openers and one continuation line. -/
theorem claim_C5_witness :
    (∀ l ∈ parseIntoLines c5doc.rawText,
      isMarkerLine l.text = true ∨ isPlainLine l.text = true) ∧
    (∀ l ∈ parseIntoLines c5doc.rawText,
      isMarkerLine l.text = true → markerText l.text ≠ "") ∧
    (((extractUtterances "u" c5doc).map (fun u => u.role)
        = ((parseIntoLines c5doc.rawText).filter (fun l => isMarkerLine l.text)).map
            (fun l => markerRole l.text)) ∧
      ((extractUtterances "u" c5doc).length
        = ((parseIntoLines c5doc.rawText).filter (fun l => isMarkerLine l.text)).length) ∧
      (∀ u ∈ extractUtterances "u" c5doc, u.text ≠ "")) :=
  ⟨by decide, by decide, claim_C5_amended "u" c5doc (by decide) (by decide)⟩

end Depo
